import Mathlib

/-!
Shallow embedding of the Hotel Room Reservation System backend
(booking_logic.py, models.py) and verification of its specification.

The mutable inventory `self.rooms : Dict[int, Room]` is modelled as a
`List Room` holding the dictionary values in insertion order (Python
dictionaries preserve insertion order, and no operation ever removes or
inserts a key after initialization).  Room fields are natural numbers;
Python integer arithmetic that may go through negatives is performed in
`Int` and converted back with `Int.natAbs` where the source applies `abs`.
-/

inductive RoomStatus where
  | AVAILABLE
  | BOOKED
deriving DecidableEq, Repr, Inhabited

structure Room where
  room_number : Nat
  floor : Nat
  position : Nat
  status : RoomStatus
  guest_id : Option String
deriving DecidableEq, Repr, Inhabited

/-- `_initialize_rooms`: floors 1-9 get 10 rooms (positions 0-9), floor 10
gets 7 rooms (positions 0-6); room number is floor*100 + position + 1. -/
def initRooms : List Room :=
  ((List.range' 1 9).flatMap fun floor =>
    (List.range 10).map fun pos =>
      { room_number := floor * 100 + (pos + 1), floor := floor, position := pos,
        status := RoomStatus.AVAILABLE, guest_id := none })
  ++ ((List.range 7).map fun pos =>
      { room_number := 1000 + (pos + 1), floor := 10, position := pos,
        status := RoomStatus.AVAILABLE, guest_id := none })

/-- `get_available_rooms`. -/
def get_available_rooms (rooms : List Room) : List Room :=
  rooms.filter fun r => r.status == RoomStatus.AVAILABLE

/-- `calculate_travel_time`: same floor is pure horizontal distance;
different floors combine 2 minutes per floor with the horizontal distance
of each room to the stairwell at position 0. -/
def calculate_travel_time (room1 room2 : Room) : Nat :=
  if room1.floor == room2.floor then
    ((room1.position : Int) - (room2.position : Int)).natAbs
  else
    ((room1.floor : Int) - (room2.floor : Int)).natAbs * 2
      + (room1.position + room2.position)

/-- `calculate_travel_time_from_reception`. -/
def calculate_travel_time_from_reception (room : Room) : Nat :=
  room.floor * 2 + room.position

/-- Return value of `get_path_from_reception` (a dict in the source). -/
structure PathInfo where
  steps : List String
  total_time : Nat
  room_number : Nat
  floor : Nat
  position : Nat
deriving DecidableEq, Repr, Inhabited

/-- `get_path_from_reception`, mirroring the three sequential `if` blocks of
the source (including the fact that for a floor-0 room with positive
position both the second and the fourth block add the horizontal time). -/
def get_path_from_reception (room : Room) : PathInfo :=
  let f := room.floor
  let p := room.position
  let n := room.room_number
  let st1 : List String × Nat :=
    if f > 0 then
      ([s!"Take stairs/lift up {f} floor(s) ({f * 2} minutes)"], f * 2)
    else ([], 0)
  let st2 : List String × Nat :=
    if p > 0 then
      (st1.1 ++ [s!"Walk {p} room(s) from stairs to Room {n} ({p} minutes)"], st1.2 + p)
    else if f > 0 then
      (st1.1 ++ [s!"Room {n} is located at the stairs on Floor {f}"], st1.2)
    else st1
  let st3 : List String × Nat :=
    if f == 0 then
      if p > 0 then
        (st2.1 ++ [s!"Walk {p} room(s) from reception to Room {n} ({p} minutes)"], st2.2 + p)
      else (st2.1 ++ ["Room is at the reception area"], st2.2)
    else st2
  { steps := st3.1, total_time := st3.2, room_number := n, floor := f, position := p }

/-- Python key comparison `(r.floor, r.position)` (lexicographic), as the
proposition underlying a stable sort. -/
def keyLEP (a b : Room) : Prop :=
  a.floor < b.floor ∨ (a.floor = b.floor ∧ a.position ≤ b.position)

instance (a b : Room) : Decidable (keyLEP a b) := by
  unfold keyLEP; infer_instance

/-- Comparison by `position` only (`key=lambda r: r.position`). -/
def posLEP (a b : Room) : Prop := a.position ≤ b.position

instance (a b : Room) : Decidable (posLEP a b) := by
  unfold posLEP; infer_instance

/-- Stable sort modelling Python `sorted` (Timsort is stable; insertion sort
with a before-strictly-greater insert realises the same stable order). -/
def sortBy {α : Type} (le : α → α → Prop) [DecidableRel le] (l : List α) : List α :=
  List.insertionSort le l

/-- `calculate_total_travel_time`: 0 for at most one room, otherwise the
pairwise time between the first and last room after sorting by
`(floor, position)`. -/
def calculate_total_travel_time (rooms : List Room) : Nat :=
  if rooms.length ≤ 1 then 0
  else
    match sortBy keyLEP rooms with
    | [] => 0
    | first_room :: rest => calculate_travel_time first_room (rest.getLastD first_room)

/- ### Theorems for the travel-time model (claims C5, C7, C6) -/

/-- **C5** Pairwise travel-time formula: `travel_time(a, b)` is
`|a.position - b.position|` on equal floors and
`2*|a.floor - b.floor| + a.position + b.position` otherwise. -/
theorem travel_time_formula (a b : Room) :
    (calculate_travel_time a b : Int) =
      if a.floor = b.floor then |(a.position : Int) - (b.position : Int)|
      else 2 * |(a.floor : Int) - (b.floor : Int)| + (a.position : Int) + (b.position : Int) := by
  unfold calculate_travel_time
  simp only [beq_iff_eq]
  split_ifs with h
  all_goals rw [Int.abs_eq_natAbs]
  all_goals push_cast
  all_goals try ring

/-- The path explanation for a floor-0 room at positive position adds the
horizontal time twice: once as "from stairs" and once as "from reception". -/
theorem path_total_floor0 (p : Nat) (hp : 0 < p) :
    (get_path_from_reception
      { room_number := 1, floor := 0, position := p,
        status := RoomStatus.AVAILABLE, guest_id := none }).total_time = p + p := by
  unfold get_path_from_reception
  simp [hp]

/-- **C7 counterexample** For the room at floor 0, position 1 (floor ≥ 0 and
position ≥ 0), the path total is 2 while `travel_time_from_reception` is 1,
so the claimed equality fails on this input. -/
theorem path_reception_agreement_counterexample :
    (get_path_from_reception
      { room_number := 1, floor := 0, position := 1,
        status := RoomStatus.AVAILABLE, guest_id := none }).total_time = 2 ∧
    calculate_travel_time_from_reception
      { room_number := 1, floor := 0, position := 1,
        status := RoomStatus.AVAILABLE, guest_id := none } = 1 ∧
    ¬ (get_path_from_reception
      { room_number := 1, floor := 0, position := 1,
        status := RoomStatus.AVAILABLE, guest_id := none }).total_time =
      calculate_travel_time_from_reception
        { room_number := 1, floor := 0, position := 1,
          status := RoomStatus.AVAILABLE, guest_id := none } := by
  refine ⟨by decide, by decide, by decide⟩

/-- **C7 (amended)** For every room on a positive floor — which covers every
room of the inventory — and for the reception point itself (floor 0,
position 0), the numeric total of `path_from_reception` equals
`travel_time_from_reception`, which equals `2*floor + position`.  (For
floor 0 with positive position the code double-counts the horizontal leg.) -/
theorem path_reception_agreement (room : Room)
    (h : 1 ≤ room.floor ∨ room.position = 0) :
    (get_path_from_reception room).total_time =
      calculate_travel_time_from_reception room ∧
    calculate_travel_time_from_reception room = 2 * room.floor + room.position := by
  constructor
  · unfold get_path_from_reception calculate_travel_time_from_reception
    rcases h with h | h
    · have hf : room.floor > 0 := h
      have hf0 : (room.floor == 0) = false := by
        simp
        omega
      by_cases hp : room.position > 0
      · simp [hf, hp, hf0]
      · simp [hf, hp, hf0]
        omega
    · by_cases hf : room.floor > 0
      · have hf0 : (room.floor == 0) = false := by
          simp
          omega
        simp [hf, h, hf0]
      · have hf0 : room.floor = 0 := by omega
        simp [hf0, h]
  · unfold calculate_travel_time_from_reception
    ring

/-- **C7 witness** The amended agreement evaluated at room 101
(floor 1, position 0). -/
theorem path_reception_agreement_witness :
    (1 ≤ (1 : Nat) ∨ (0 : Nat) = 0) ∧
    ((get_path_from_reception
      { room_number := 101, floor := 1, position := 0,
        status := RoomStatus.AVAILABLE, guest_id := none }).total_time =
      calculate_travel_time_from_reception
        { room_number := 101, floor := 1, position := 0,
          status := RoomStatus.AVAILABLE, guest_id := none } ∧
     calculate_travel_time_from_reception
        { room_number := 101, floor := 1, position := 0,
          status := RoomStatus.AVAILABLE, guest_id := none } = 2 * 1 + 0) :=
  ⟨Or.inl (le_refl 1),
   path_reception_agreement
     { room_number := 101, floor := 1, position := 0,
       status := RoomStatus.AVAILABLE, guest_id := none } (Or.inl (le_refl 1))⟩

/- ### Order facts for the sort keys -/

instance : IsTotal Room keyLEP :=
  ⟨fun a b => by unfold keyLEP; omega⟩

instance : IsTrans Room keyLEP :=
  ⟨fun a b c hab hbc => by unfold keyLEP at *; omega⟩

instance : IsRefl Room keyLEP :=
  ⟨fun a => by unfold keyLEP; omega⟩

instance : IsTotal Room posLEP :=
  ⟨fun a b => by unfold posLEP; omega⟩

instance : IsTrans Room posLEP :=
  ⟨fun a b c hab hbc => by unfold posLEP at *; omega⟩

theorem sortBy_perm {α : Type} (le : α → α → Prop) [DecidableRel le] (l : List α) :
    List.Perm (sortBy le l) l :=
  List.perm_insertionSort le l

theorem sortBy_sorted {α : Type} (le : α → α → Prop) [DecidableRel le]
    [IsTotal α le] [IsTrans α le] (l : List α) : List.Sorted le (sortBy le l) :=
  List.sorted_insertionSort le l

/-- In a sorted nonempty list, every element is related to the last one. -/
theorem sorted_rel_getLastD {α : Type} {le : α → α → Prop} [IsTrans α le] [IsRefl α le]
    (l : List α) : ∀ (a : α), List.Sorted le (a :: l) → ∀ x ∈ a :: l, le x (l.getLastD a) := by
  induction l with
  | nil =>
      intro a _ x hx
      simp at hx
      subst hx
      simpa using refl_of le x
  | cons b l ih =>
      intro a hs x hx
      rw [List.getLastD_cons]
      have hs2 : List.Sorted le (b :: l) := hs.of_cons
      have hab : le a b := List.rel_of_sorted_cons hs b (by simp)
      rcases List.mem_cons.mp hx with hxa | hx2
      · subst hxa
        exact trans_of le hab (ih b hs2 b (by simp))
      · exact ih b hs2 x hx2

/-- In a sorted nonempty list, the head is related to every element. -/
theorem sorted_head_rel {α : Type} {le : α → α → Prop} [IsRefl α le]
    (l : List α) (a : α) (hs : List.Sorted le (a :: l)) : ∀ x ∈ a :: l, le a x := by
  intro x hx
  rcases List.mem_cons.mp hx with hxa | hx2
  · rw [hxa]; exact refl_of le a
  · exact List.rel_of_sorted_cons hs x hx2

/-- **C6** Aggregate travel time: 0 for at most one room; otherwise the
pairwise travel time between the head and the last element of the list
sorted by `(floor, position)`, and those two extremes are key-minimal and
key-maximal among all rooms of the list. -/
theorem total_travel_time_extremes (rooms : List Room) :
    (rooms.length ≤ 1 → calculate_total_travel_time rooms = 0) ∧
    (2 ≤ rooms.length →
      calculate_total_travel_time rooms =
        calculate_travel_time (sortBy keyLEP rooms).headI
          ((sortBy keyLEP rooms).getLastD default) ∧
      ∀ r ∈ rooms, keyLEP (sortBy keyLEP rooms).headI r ∧
        keyLEP r ((sortBy keyLEP rooms).getLastD default)) := by
  constructor
  · intro h
    unfold calculate_total_travel_time
    simp [h]
  · intro h
    have hlen : (sortBy keyLEP rooms).length = rooms.length :=
      (sortBy_perm keyLEP rooms).length_eq
    have hsorted : List.Sorted keyLEP (sortBy keyLEP rooms) := sortBy_sorted keyLEP rooms
    have hmem : ∀ r ∈ rooms, r ∈ sortBy keyLEP rooms :=
      fun r hr => (sortBy_perm keyLEP rooms).mem_iff.mpr hr
    cases hsort : sortBy keyLEP rooms with
    | nil =>
        rw [hsort] at hlen
        simp at hlen
        omega
    | cons first_room rest =>
        rw [hsort] at hsorted hmem
        constructor
        · unfold calculate_total_travel_time
          have h2 : ¬ rooms.length ≤ 1 := by omega
          rw [if_neg h2, hsort, List.getLastD_cons]
          rfl
        · intro r hr
          have hr2 := hmem r hr
          constructor
          · simpa using sorted_head_rel rest first_room hsorted r hr2
          · rw [List.getLastD_cons]
            exact sorted_rel_getLastD rest first_room hsorted r hr2

/-- **C6 witness** Rooms 102 and 305 (floors 1 and 3): total travel time is
2*2 + 1 + 4 = 9, the pairwise time between the sorted extremes. -/
theorem total_travel_time_extremes_witness :
    2 ≤ ([{ room_number := 305, floor := 3, position := 4,
            status := RoomStatus.AVAILABLE, guest_id := none },
          { room_number := 102, floor := 1, position := 1,
            status := RoomStatus.AVAILABLE, guest_id := none }] : List Room).length ∧
    calculate_total_travel_time
        [{ room_number := 305, floor := 3, position := 4,
           status := RoomStatus.AVAILABLE, guest_id := none },
         { room_number := 102, floor := 1, position := 1,
           status := RoomStatus.AVAILABLE, guest_id := none }] =
      calculate_travel_time
        (sortBy keyLEP
          [{ room_number := 305, floor := 3, position := 4,
             status := RoomStatus.AVAILABLE, guest_id := none },
           { room_number := 102, floor := 1, position := 1,
             status := RoomStatus.AVAILABLE, guest_id := none }]).headI
        ((sortBy keyLEP
          [{ room_number := 305, floor := 3, position := 4,
             status := RoomStatus.AVAILABLE, guest_id := none },
           { room_number := 102, floor := 1, position := 1,
             status := RoomStatus.AVAILABLE, guest_id := none }]).getLastD default) :=
  ⟨by decide,
   ((total_travel_time_extremes
      [{ room_number := 305, floor := 3, position := 4,
         status := RoomStatus.AVAILABLE, guest_id := none },
       { room_number := 102, floor := 1, position := 1,
         status := RoomStatus.AVAILABLE, guest_id := none }]).2 (by decide)).1⟩

/- ### Room Allocator (find_rooms_on_same_floor / _find_consecutive_rooms /
_find_optimal_cross_floor_rooms / find_optimal_rooms) -/

/-- The consecutive-position check of `_find_consecutive_rooms`:
`all(positions[j] == positions[0] + j for j in range(len(positions)))`. -/
def isConsecutiveFrom : Nat → List Room → Bool
  | _, [] => true
  | p, r :: rs => (r.position == p) && isConsecutiveFrom (p + 1) rs

/-- Positions of the window are `positions[0], positions[0]+1, ...`. -/
def isConsecutive (w : List Room) : Bool :=
  match w with
  | [] => true
  | r :: _ => isConsecutiveFrom r.position w

/-- `_find_consecutive_rooms`: scan windows of size `num_rooms` over the
position-sorted list, returning the first consecutive one. -/
def find_consecutive_rooms (num_rooms : Nat) : List Room → Option (List Room)
  | [] => if 0 < num_rooms then none else some []
  | r :: rs =>
      if (r :: rs).length < num_rooms then none
      else if isConsecutive ((r :: rs).take num_rooms) then some ((r :: rs).take num_rooms)
      else find_consecutive_rooms num_rooms rs

/-- The available rooms on one floor, in inventory order (the per-floor
lists of `available_by_floor` before sorting). -/
def availOnFloor (rooms : List Room) (f : Nat) : List Room :=
  (get_available_rooms rooms).filter fun r => r.floor == f

/-- The `for floor in sorted(available_by_floor.keys())` loop body of
`find_rooms_on_same_floor`. -/
def tryFloors (avail : List Room) (num_rooms : Nat) : List Nat → Option (List Room)
  | [] => none
  | f :: fs =>
      let floor_rooms := sortBy posLEP (avail.filter fun r => r.floor == f)
      if num_rooms ≤ floor_rooms.length then
        match find_consecutive_rooms num_rooms floor_rooms with
        | some (c :: cs) => some (c :: cs)
        | _ => some (floor_rooms.take num_rooms)
      else tryFloors avail num_rooms fs

/-- `find_rooms_on_same_floor`: group the available rooms by floor, visit
floors in ascending order, and on the first floor with enough rooms return
the first consecutive window (or the `num_rooms` lowest-position rooms). -/
def find_rooms_on_same_floor (rooms : List Room) (num_rooms : Nat) : Option (List Room) :=
  let avail := get_available_rooms rooms
  tryFloors avail num_rooms (sortBy (fun a b : Nat => a ≤ b) ((avail.map fun r => r.floor).dedup))

/-- `itertools.combinations`, in its lexicographic-by-index order. -/
def combinations {α : Type} : Nat → List α → List (List α)
  | 0, _ => [[]]
  | _ + 1, [] => []
  | n + 1, x :: xs => ((combinations n xs).map fun c => x :: c) ++ combinations (n + 1) xs

/-- The `for combo in combinations(...)` loop of
`_find_optimal_cross_floor_rooms`: keep the first combination, then replace
it only on strictly smaller `calculate_total_travel_time` (the initial
`float('inf')` bound is beaten by every value). -/
def pickBestCombo (combos : List (List Room)) : Option (List Room) :=
  combos.foldl
    (fun best combo =>
      match best with
      | none => some combo
      | some b =>
          if calculate_total_travel_time combo < calculate_total_travel_time b then some combo
          else some b)
    none

/-- `_find_optimal_cross_floor_rooms` (its `rooms_by_floor` grouping is
computed but never used by the source, so it has no observable effect). -/
def find_optimal_cross_floor_rooms (available_rooms : List Room) (num_rooms : Nat) :
    Option (List Room) :=
  pickBestCombo (combinations num_rooms available_rooms)

/-- `find_optimal_rooms`: tier 1 (same floor) wins when it returns a
non-empty list (Python truthiness); otherwise tier 2 enumerates all
combinations, returning `[]` when fewer than `num_rooms` rooms remain. -/
def find_optimal_rooms (rooms : List Room) (num_rooms : Nat) : List Room :=
  match find_rooms_on_same_floor rooms num_rooms with
  | some (r :: rs) => r :: rs
  | _ =>
      let available_rooms := get_available_rooms rooms
      if available_rooms.length < num_rooms then []
      else
        match find_optimal_cross_floor_rooms available_rooms num_rooms with
        | some (r :: rs) => r :: rs
        | _ => []

/- ### Booking Service (book_rooms / reset_all_bookings /
generate_random_occupancy / get_statistics) -/

/-- The two `ValueError`s of `book_rooms`, with the data their messages
report. -/
inductive BookError where
  | invalidArgument
  | insufficientInventory (requested : Int) (available : Nat)
deriving DecidableEq, Repr

/-- Successful return of `book_rooms` together with the inventory it leaves
behind. -/
structure BookResult where
  state : List Room
  booked_room_numbers : List Nat
  total_travel_time : Nat
  room_paths : List PathInfo
deriving DecidableEq, Repr

/-- `book_rooms`: validate `1 <= num_rooms <= 5`, allocate, fail with the
requested/available counts when the allocation is short, otherwise mark
every allocated room BOOKED with the given guest id.  `num_rooms` is a
Python `int`, hence `Int`. -/
def book_rooms (rooms : List Room) (num_rooms : Int) (guest_id : Option String) :
    Except BookError BookResult :=
  if num_rooms < 1 ∨ num_rooms > 5 then Except.error BookError.invalidArgument
  else
    let n := num_rooms.toNat
    let optimal_rooms := find_optimal_rooms rooms n
    if optimal_rooms.length < n then
      Except.error (BookError.insufficientInventory num_rooms (get_available_rooms rooms).length)
    else
      let booked_room_numbers := optimal_rooms.map fun r => r.room_number
      let booked_rooms := optimal_rooms.map fun r =>
        { r with status := RoomStatus.BOOKED, guest_id := guest_id }
      Except.ok
        { state := rooms.map fun r =>
            if r.room_number ∈ booked_room_numbers then
              { r with status := RoomStatus.BOOKED, guest_id := guest_id }
            else r
          booked_room_numbers := booked_room_numbers
          total_travel_time := calculate_total_travel_time booked_rooms
          room_paths := booked_rooms.map get_path_from_reception }

/-- `reset_all_bookings`. -/
def reset_all_bookings (rooms : List Room) : List Room :=
  rooms.map fun r => { r with status := RoomStatus.AVAILABLE, guest_id := none }

/-- One iteration of the booking loop of `generate_random_occupancy`:
`self.rooms[num].status = BOOKED; ... .guest_id = gid`. -/
def bookOne (rooms : List Room) (num : Nat) (gid : Option String) : List Room :=
  rooms.map fun r =>
    if r.room_number == num then { r with status := RoomStatus.BOOKED, guest_id := gid } else r

/-- Round a rational to an integer, ties to even (the IEEE 754 rounding of
a halfway significand). -/
def roundHalfEven (x : Rat) : Int :=
  if x - (⌊x⌋ : Rat) < 1/2 then ⌊x⌋
  else if 1/2 < x - (⌊x⌋ : Rat) then ⌊x⌋ + 1
  else if ⌊x⌋ % 2 = 0 then ⌊x⌋ else ⌊x⌋ + 1

/-- Binary64 round-to-nearest-even on the exact value of an expression: the
53-bit significand of `x`'s binade is rounded half-to-even.  (The exponent
is unbounded, so subnormal underflow and overflow to infinity are not
modelled; every value the occupancy computation produces from a percentage
in `[0,100]` lies well inside the normal range, where this agrees with
IEEE 754 binary64 arithmetic.) -/
def fl64 (x : Rat) : Rat :=
  if x = 0 then 0
  else if 0 < x then
    (roundHalfEven (x * 2 ^ ((52 : Int) - Int.log 2 x)) : Rat) * 2 ^ (Int.log 2 x - 52)
  else
    -((roundHalfEven (-x * 2 ^ ((52 : Int) - Int.log 2 (-x))) : Rat) *
      2 ^ (Int.log 2 (-x) - 52))

/-- The Python expression `int(total_rooms * occupancy_percentage / 100)`:
`total_rooms` is converted to float exactly (it is 97), each of the `*` and
`/` results is rounded to the nearest double, and `int` truncates. -/
def num_to_book_float (total_rooms : Nat) (occupancy_percentage : Rat) : Nat :=
  (Int.floor (fl64 (fl64 ((total_rooms : Rat) * occupancy_percentage) / 100))).toNat

/-- `generate_random_occupancy`: full reset, then book
`int(total * percentage / 100)` rooms taken from the front of the shuffled
key list.  The random shuffle outcome is the parameter `shuffled` (a
permutation of the room numbers) and the random guest ids are `gids`; the
source's float arithmetic for the count is modelled by `num_to_book_float`. -/
def generate_random_occupancy (rooms : List Room) (occupancy_percentage : Rat)
    (shuffled : List Nat) (gids : Nat → String) : List Room :=
  let start := reset_all_bookings rooms
  let total_rooms := rooms.length
  let num_to_book := num_to_book_float total_rooms occupancy_percentage
  ((shuffled.take num_to_book).enum).foldl
    (fun st p => bookOne st p.2 (some (gids p.1))) start

/-- `get_statistics`. -/
structure Statistics where
  total_rooms : Nat
  booked_rooms : Nat
  available_rooms : Nat
deriving DecidableEq, Repr

def get_statistics (rooms : List Room) : Statistics :=
  let total := rooms.length
  let booked := rooms.countP fun r => r.status == RoomStatus.BOOKED
  { total_rooms := total, booked_rooms := booked, available_rooms := total - booked }

/-- The inventory states reachable from initialization through the public
mutating operations.  `book_rooms` changes the state only on success;
`generate_random_occupancy` runs on an arbitrary permutation of the room
numbers (the shuffle outcome) and arbitrary generated guest ids. -/
inductive Reachable : List Room → Prop where
  | init : Reachable initRooms
  | book {s : List Room} {n : Int} {g : Option String} {res : BookResult} :
      Reachable s → book_rooms s n g = Except.ok res → Reachable res.state
  | reset {s : List Room} : Reachable s → Reachable (reset_all_bookings s)
  | random {s : List Room} {p : Rat} {shuffled : List Nat} {gids : Nat → String} :
      Reachable s → List.Perm shuffled (s.map fun r => r.room_number) →
      Reachable (generate_random_occupancy s p shuffled gids)

/- ### Tier-1 analysis: windows of the position-sorted floor list -/

/-- The window of size `n` starting at index `i` of the sorted floor list. -/
def consecWindow (A : List Room) (i n : Nat) : List Room := (A.drop i).take n

theorem consecWindow_zero (A : List Room) (n : Nat) : consecWindow A 0 n = A.take n := rfl

theorem consecWindow_succ (r : Room) (rs : List Room) (i n : Nat) :
    consecWindow (r :: rs) (i + 1) n = consecWindow rs i n := rfl

theorem consecWindow_length {A : List Room} {i n : Nat} (h : i + n ≤ A.length) :
    (consecWindow A i n).length = n := by
  unfold consecWindow
  rw [List.length_take, List.length_drop]
  omega

theorem consecWindow_sublist (A : List Room) (i n : Nat) :
    (consecWindow A i n).Sublist A :=
  (List.take_sublist _ _).trans (List.drop_sublist _ _)

/-- Soundness of `_find_consecutive_rooms`: a returned list is the window at
the least index whose positions are consecutive. -/
theorem find_consecutive_rooms_some {n : Nat} :
    ∀ {A w : List Room}, find_consecutive_rooms n A = some w →
      ∃ i, i + n ≤ A.length ∧ w = consecWindow A i n ∧ isConsecutive w = true ∧
        ∀ j, j < i → isConsecutive (consecWindow A j n) = false := by
  intro A
  induction A with
  | nil =>
      intro w hw
      cases n with
      | zero =>
          unfold find_consecutive_rooms at hw
          simp at hw
          rw [hw]
          exact ⟨0, by simp, rfl, rfl, fun j hj => by omega⟩
      | succ m =>
          unfold find_consecutive_rooms at hw
          simp at hw
  | cons r rs ih =>
      intro w hw
      unfold find_consecutive_rooms at hw
      by_cases h1 : (r :: rs).length < n
      · rw [if_pos h1] at hw
        simp at hw
      · rw [if_neg h1] at hw
        by_cases h2 : isConsecutive ((r :: rs).take n) = true
        · rw [if_pos h2] at hw
          have hw2 : (r :: rs).take n = w := Option.some.inj hw
          rw [Eq.symm hw2]
          refine ⟨0, ?_, rfl, h2, fun j hj => by omega⟩
          simp at h1
          simpa using h1
        · rw [if_neg h2] at hw
          obtain ⟨i, hi, hwi, hcons, hmin⟩ := ih hw
          refine ⟨i + 1, ?_, ?_, hcons, ?_⟩
          · simp
            omega
          · rw [consecWindow_succ]
            exact hwi
          · intro j hj
            cases j with
            | zero =>
                rw [consecWindow_zero]
                simpa using h2
            | succ j =>
                rw [consecWindow_succ]
                exact hmin j (by omega)

/-- Completeness direction: `none` means no window is consecutive. -/
theorem find_consecutive_rooms_none {n : Nat} :
    ∀ {A : List Room}, find_consecutive_rooms n A = none →
      ∀ j, j + n ≤ A.length → isConsecutive (consecWindow A j n) = false := by
  intro A
  induction A with
  | nil =>
      intro hw j hj
      cases n with
      | zero =>
          unfold find_consecutive_rooms at hw
          simp at hw
      | succ m =>
          simp at hj
  | cons r rs ih =>
      intro hw j hj
      unfold find_consecutive_rooms at hw
      by_cases h1 : (r :: rs).length < n
      · simp at h1 hj
        omega
      · rw [if_neg h1] at hw
        by_cases h2 : isConsecutive ((r :: rs).take n) = true
        · rw [if_pos h2] at hw
          simp at hw
        · rw [if_neg h2] at hw
          cases j with
          | zero =>
              rw [consecWindow_zero]
              simpa using h2
          | succ j =>
              rw [consecWindow_succ]
              refine ih hw j ?_
              simp at hj
              omega

/- ### Tier-1 analysis: the ascending floor scan -/

/-- A floor qualifies for tier 1 when it holds at least `num_rooms`
available rooms. -/
def floorQualifies (rooms : List Room) (num_rooms f : Nat) : Prop :=
  num_rooms ≤ (availOnFloor rooms f).length

instance (rooms : List Room) (num_rooms : Nat) : DecidablePred (floorQualifies rooms num_rooms) :=
  fun f => by unfold floorQualifies; infer_instance

/-- The `floor_rooms` list the source builds for floor `f`: that floor's
available rooms sorted by position. -/
def floorRoomsSorted (rooms : List Room) (f : Nat) : List Room :=
  sortBy posLEP (availOnFloor rooms f)

theorem floorRoomsSorted_length (rooms : List Room) (f : Nat) :
    (floorRoomsSorted rooms f).length = (availOnFloor rooms f).length :=
  (sortBy_perm posLEP (availOnFloor rooms f)).length_eq

theorem floorRoomsSorted_mem {rooms : List Room} {f : Nat} {r : Room}
    (hr : r ∈ floorRoomsSorted rooms f) : r.floor = f ∧ r ∈ get_available_rooms rooms := by
  have hr2 : r ∈ availOnFloor rooms f :=
    (sortBy_perm posLEP (availOnFloor rooms f)).mem_iff.mp hr
  have hr3 := List.mem_filter.mp hr2
  exact ⟨by simpa using hr3.2, hr3.1⟩

theorem floorRoomsSorted_sorted (rooms : List Room) (f : Nat) :
    List.Sorted posLEP (floorRoomsSorted rooms f) :=
  sortBy_sorted posLEP (availOnFloor rooms f)

/-- The head of a window at index `i` is the `i`-th element of the list. -/
theorem consecWindow_headI {A : List Room} {i n : Nat} (hn : 0 < n) (hi : i < A.length) :
    (consecWindow A i n).headI = A[i] := by
  have hlt : 0 < (A.drop i).length := by
    rw [List.length_drop]
    omega
  obtain ⟨a, t, hd⟩ : ∃ a t, A.drop i = a :: t := by
    cases hdrop : A.drop i with
    | nil =>
        rw [hdrop] at hlt
        simp at hlt
    | cons a t => exact ⟨a, t, rfl⟩
  have ha : a = A[i] := by
    have h0 : (A.drop i)[0]? = A[i]? := by
      rw [List.getElem?_drop]
      norm_num
    rw [hd] at h0
    simp at h0
    rw [List.getElem?_eq_getElem hi] at h0
    exact (Option.some.inj h0)
  unfold consecWindow
  rw [hd]
  cases n with
  | zero => omega
  | succ m => simp [ha]

/-- When no listed floor qualifies, the floor scan returns nothing. -/
theorem tryFloors_none (s : List Room) (n : Nat) :
    ∀ fl : List Nat, (∀ f ∈ fl, ¬ floorQualifies s n f) →
      tryFloors (get_available_rooms s) n fl = none := by
  intro fl
  induction fl with
  | nil => intro _; rfl
  | cons f fs ih =>
      intro h
      have hq : ¬ floorQualifies s n f := h f (by simp)
      have hcond : ¬ n ≤ (sortBy posLEP ((get_available_rooms s).filter
          fun r => r.floor == f)).length := by
        rw [(sortBy_perm posLEP _).length_eq]
        exact hq
      unfold tryFloors
      rw [if_neg hcond]
      exact ih fun f2 hf2 => h f2 (List.mem_cons_of_mem f hf2)

/-- The floor scan stops at the least qualifying floor `F` of an ascending
floor list that contains `F` and no qualifying floor below `F`. -/
theorem tryFloors_first (s : List Room) (n F : Nat) (hF : floorQualifies s n F) :
    ∀ fl : List Nat, List.Pairwise (fun a b : Nat => a ≤ b) fl → F ∈ fl →
      (∀ f ∈ fl, f < F → ¬ floorQualifies s n f) →
      tryFloors (get_available_rooms s) n fl =
        (match find_consecutive_rooms n (floorRoomsSorted s F) with
         | some (c :: cs) => some (c :: cs)
         | _ => some ((floorRoomsSorted s F).take n)) := by
  intro fl
  induction fl with
  | nil =>
      intro _ hmem
      simp at hmem
  | cons f fs ih =>
      intro hpw hmem hmin
      have hfF : f ≤ F := by
        rcases List.mem_cons.mp hmem with heq | hm
        · omega
        · exact (List.pairwise_cons.mp hpw).1 F hm
      by_cases hq : floorQualifies s n f
      · have hnlt : ¬ f < F := fun hlt => hmin f (by simp) hlt hq
        have hfeq : f = F := by omega
        subst hfeq
        have hcond : n ≤ (sortBy posLEP ((get_available_rooms s).filter
            fun r => r.floor == f)).length := by
          rw [(sortBy_perm posLEP _).length_eq]
          exact hq
        unfold tryFloors
        rw [if_pos hcond]
        rfl
      · have hcond : ¬ n ≤ (sortBy posLEP ((get_available_rooms s).filter
            fun r => r.floor == f)).length := by
          rw [(sortBy_perm posLEP _).length_eq]
          exact hq
        have hmem2 : F ∈ fs := by
          rcases List.mem_cons.mp hmem with heq | hm
          · exact absurd (heq ▸ hF) hq
          · exact hm
        unfold tryFloors
        rw [if_neg hcond]
        exact ih (List.pairwise_cons.mp hpw).2 hmem2
          fun f2 hf2 h2 => hmin f2 (List.mem_cons_of_mem f hf2) h2

/-- `find_rooms_on_same_floor` lands exactly on the least qualifying floor
(when one exists) and returns the first consecutive window of its sorted
available rooms, or its first `num_rooms` rooms. -/
theorem find_rooms_on_same_floor_eq (s : List Room) (n : Nat) (h1 : 1 ≤ n)
    (hex : ∃ f, floorQualifies s n f) :
    find_rooms_on_same_floor s n =
      (match find_consecutive_rooms n (floorRoomsSorted s (Nat.find hex)) with
       | some (c :: cs) => some (c :: cs)
       | _ => some ((floorRoomsSorted s (Nat.find hex)).take n)) := by
  have hF : floorQualifies s n (Nat.find hex) := Nat.find_spec hex
  unfold find_rooms_on_same_floor
  refine tryFloors_first s n (Nat.find hex) hF _ ?_ ?_ ?_
  · exact sortBy_sorted (fun a b : Nat => a ≤ b) _
  · have hmemmap : Nat.find hex ∈ (get_available_rooms s).map fun r => r.floor := by
      have hlen : 1 ≤ (availOnFloor s (Nat.find hex)).length := le_trans h1 hF
      have hpos : 0 < (availOnFloor s (Nat.find hex)).length := by omega
      obtain ⟨r, hr⟩ := List.exists_mem_of_length_pos hpos
      have hr2 := List.mem_filter.mp hr
      exact List.mem_map.mpr ⟨r, hr2.1, by simpa using hr2.2⟩
    exact (sortBy_perm _ _).mem_iff.mpr (List.mem_dedup.mpr hmemmap)
  · intro f _ hlt
    exact Nat.find_min hex hlt

/-- **C1** Tier-1 allocation: whenever some floor has at least `n` available
rooms (`1 ≤ n ≤ 5`), `find_optimal_rooms` stays entirely on the least such
floor `F = Nat.find hex`: it returns the lowest-starting-position window of
`n` consecutive-position rooms of `F`'s position-sorted available rooms if
one exists, and otherwise `F`'s `n` lowest-position available rooms; no
later floor is ever used. -/
theorem tier1_lowest_floor_allocation (s : List Room) (n : Nat) (h1 : 1 ≤ n) (h5 : n ≤ 5)
    (hex : ∃ f, floorQualifies s n f) :
    (∀ r ∈ find_optimal_rooms s n, r.floor = Nat.find hex) ∧
    ((∃ i, i + n ≤ (floorRoomsSorted s (Nat.find hex)).length ∧
        find_optimal_rooms s n = consecWindow (floorRoomsSorted s (Nat.find hex)) i n ∧
        isConsecutive (consecWindow (floorRoomsSorted s (Nat.find hex)) i n) = true ∧
        ∀ j, j + n ≤ (floorRoomsSorted s (Nat.find hex)).length →
          isConsecutive (consecWindow (floorRoomsSorted s (Nat.find hex)) j n) = true →
          (consecWindow (floorRoomsSorted s (Nat.find hex)) i n).headI.position ≤
            (consecWindow (floorRoomsSorted s (Nat.find hex)) j n).headI.position) ∨
      ((∀ j, j + n ≤ (floorRoomsSorted s (Nat.find hex)).length →
          isConsecutive (consecWindow (floorRoomsSorted s (Nat.find hex)) j n) = false) ∧
        find_optimal_rooms s n = (floorRoomsSorted s (Nat.find hex)).take n)) := by
  set F := Nat.find hex with hFdef
  set A := floorRoomsSorted s F with hAdef
  have hqual : floorQualifies s n F := Nat.find_spec hex
  have hAlen : n ≤ A.length := by
    rw [hAdef, floorRoomsSorted_length]
    exact hqual
  have heq := find_rooms_on_same_floor_eq s n h1 hex
  rw [← hFdef, ← hAdef] at heq
  cases hfc : find_consecutive_rooms n A with
  | some w =>
      obtain ⟨i, hi, hwi, hcons, hmin⟩ := find_consecutive_rooms_some hfc
      have hwlen : w.length = n := by
        rw [hwi]
        exact consecWindow_length hi
      have hw_ne : w ≠ [] := by
        intro hnil
        rw [hnil] at hwlen
        simp at hwlen
        omega
      obtain ⟨c, cs, hccs⟩ := List.exists_cons_of_ne_nil hw_ne
      have hsf : find_rooms_on_same_floor s n = some w := by
        rw [heq, hfc, hccs]
      have hres : find_optimal_rooms s n = w := by
        unfold find_optimal_rooms
        rw [hsf, hccs]
      constructor
      · intro r hr
        rw [hres, hwi] at hr
        have hrA : r ∈ A := (consecWindow_sublist A i n).subset hr
        exact (floorRoomsSorted_mem hrA).1
      · left
        refine ⟨i, hi, by rw [hres, hwi], hwi ▸ hcons, ?_⟩
        intro j hj hconsj
        by_cases hij : j < i
        · rw [hmin j hij] at hconsj
          cases hconsj
        · have hii : i < A.length := by omega
          have hjj : j < A.length := by omega
          rw [consecWindow_headI (by omega) hii, consecWindow_headI (by omega) hjj]
          have hs := floorRoomsSorted_sorted s F
          rw [← hAdef] at hs
          have hrel := List.Sorted.rel_get_of_le hs
            (show (⟨i, hii⟩ : Fin A.length) ≤ ⟨j, hjj⟩ from by
              simp [Fin.le_def]
              omega)
          simpa [posLEP] using hrel
  | none =>
      have hnone := find_consecutive_rooms_none hfc
      have htk_ne : A.take n ≠ [] := by
        intro hnil
        have hlen0 : (A.take n).length = 0 := by
          rw [hnil]
          rfl
        rw [List.length_take] at hlen0
        omega
      obtain ⟨c, cs, hccs⟩ := List.exists_cons_of_ne_nil htk_ne
      have hsf : find_rooms_on_same_floor s n = some (A.take n) := by
        rw [heq, hfc]
      have hres : find_optimal_rooms s n = A.take n := by
        unfold find_optimal_rooms
        rw [hsf, hccs]
      constructor
      · intro r hr
        rw [hres] at hr
        exact (floorRoomsSorted_mem ((List.take_sublist n A).subset hr)).1
      · right
        exact ⟨hnone, hres⟩

/- ### Tier-2 analysis: combinations and the fold minimum -/

theorem combinations_length {α : Type} :
    ∀ (l : List α) (n : Nat) (c : List α), c ∈ combinations n l → c.length = n := by
  intro l
  induction l with
  | nil =>
      intro n c hc
      cases n with
      | zero =>
          simp [combinations] at hc
          rw [hc]
          rfl
      | succ m => simp [combinations] at hc
  | cons x xs ih =>
      intro n c hc
      cases n with
      | zero =>
          simp [combinations] at hc
          rw [hc]
          rfl
      | succ m =>
          rcases List.mem_append.mp hc with h | h
          · obtain ⟨c2, hc2, hcc⟩ := List.mem_map.mp h
            rw [← hcc, List.length_cons, ih m c2 hc2]
          · exact ih (m + 1) c h

theorem combinations_sublist {α : Type} :
    ∀ (l : List α) (n : Nat) (c : List α), c ∈ combinations n l → c.Sublist l := by
  intro l
  induction l with
  | nil =>
      intro n c hc
      cases n with
      | zero =>
          simp [combinations] at hc
          rw [hc]
      | succ m => simp [combinations] at hc
  | cons x xs ih =>
      intro n c hc
      cases n with
      | zero =>
          simp [combinations] at hc
          rw [hc]
          exact List.nil_sublist _
      | succ m =>
          rcases List.mem_append.mp hc with h | h
          · obtain ⟨c2, hc2, hcc⟩ := List.mem_map.mp h
            rw [← hcc]
            exact List.Sublist.cons₂ x (ih m c2 hc2)
          · exact List.Sublist.cons x (ih (m + 1) c h)

theorem sublist_mem_combinations {α : Type} :
    ∀ {c l : List α}, c.Sublist l → c ∈ combinations c.length l := by
  intro c l h
  induction h with
  | slnil => simp [combinations]
  | cons a h ih =>
      rename_i c1 l1
      cases c1 with
      | nil => simp [combinations]
      | cons y ys =>
          rw [List.length_cons]
          exact List.mem_append_right _ ih
  | cons₂ a h ih =>
      rename_i c1 l1
      rw [List.length_cons]
      refine List.mem_append_left _ ?_
      exact List.mem_map.mpr ⟨c1, ih, rfl⟩

theorem combinations_ne_nil {α : Type} :
    ∀ (l : List α) (n : Nat), n ≤ l.length → combinations n l ≠ [] := by
  intro l
  induction l with
  | nil =>
      intro n hn
      cases n with
      | zero => simp [combinations]
      | succ m => simp at hn
  | cons x xs ih =>
      intro n hn
      cases n with
      | zero => simp [combinations]
      | succ m =>
          have hm : m ≤ xs.length := by
            simp at hn
            omega
          intro happ
          rcases List.append_eq_nil.mp happ with ⟨hmap, _⟩
          exact ih m hm (List.map_eq_nil_iff.mp hmap)

/-- Invariant of the strict-improvement fold once an incumbent exists. -/
theorem pickBest_go (combos : List (List Room)) :
    ∀ b0 : List Room,
      ∃ b, combos.foldl
          (fun best combo =>
            match best with
            | none => some combo
            | some b =>
                if calculate_total_travel_time combo < calculate_total_travel_time b then
                  some combo
                else some b)
          (some b0) = some b ∧ (b = b0 ∨ b ∈ combos) ∧
        calculate_total_travel_time b ≤ calculate_total_travel_time b0 ∧
        ∀ c ∈ combos, calculate_total_travel_time b ≤ calculate_total_travel_time c := by
  induction combos with
  | nil =>
      intro b0
      exact ⟨b0, rfl, Or.inl rfl, le_refl _, by simp⟩
  | cons c cs ih =>
      intro b0
      by_cases hlt : calculate_total_travel_time c < calculate_total_travel_time b0
      · obtain ⟨b, hb, hbmem, hble, hbmin⟩ := ih c
        refine ⟨b, ?_, ?_, ?_, ?_⟩
        · simpa [hlt] using hb
        · rcases hbmem with hb0 | hbm
          · exact Or.inr (by rw [hb0]; simp)
          · exact Or.inr (List.mem_cons_of_mem c hbm)
        · omega
        · intro c2 hc2
          rcases List.mem_cons.mp hc2 with heq | hmem
          · rw [heq]
            exact hble
          · exact hbmin c2 hmem
      · obtain ⟨b, hb, hbmem, hble, hbmin⟩ := ih b0
        refine ⟨b, ?_, ?_, hble, ?_⟩
        · simpa [hlt] using hb
        · rcases hbmem with hb0 | hbm
          · exact Or.inl hb0
          · exact Or.inr (List.mem_cons_of_mem c hbm)
        · intro c2 hc2
          rcases List.mem_cons.mp hc2 with heq | hmem
          · rw [heq]
            omega
          · exact hbmin c2 hmem

/-- The fold of `_find_optimal_cross_floor_rooms` returns a combination of
minimal total travel time (first minimum wins). -/
theorem pickBestCombo_spec (combos : List (List Room)) (hne : combos ≠ []) :
    ∃ b, pickBestCombo combos = some b ∧ b ∈ combos ∧
      ∀ c ∈ combos, calculate_total_travel_time b ≤ calculate_total_travel_time c := by
  cases combos with
  | nil => exact absurd rfl hne
  | cons c cs =>
      obtain ⟨b, hb, hbmem, hble, hbmin⟩ := pickBest_go cs c
      refine ⟨b, hb, ?_, ?_⟩
      · rcases hbmem with hb0 | hbm
        · rw [hb0]
          simp
        · exact List.mem_cons_of_mem c hbm
      · intro c2 hc2
        rcases List.mem_cons.mp hc2 with heq | hmem
        · rw [heq]
          exact hble
        · exact hbmin c2 hmem

/- ### Permutation invariance of the aggregate travel time -/

/-- The sort key of a room. -/
def keyOf (r : Room) : Nat × Nat := (r.floor, r.position)

/-- Lexicographic order on sort keys. -/
def pairLE (x y : Nat × Nat) : Prop := x.1 < y.1 ∨ (x.1 = y.1 ∧ x.2 ≤ y.2)

instance (x y : Nat × Nat) : Decidable (pairLE x y) := by
  unfold pairLE; infer_instance

instance : IsAntisymm (Nat × Nat) pairLE :=
  ⟨fun x y hxy hyx => by
    rcases x with ⟨a, b⟩
    rcases y with ⟨c, d⟩
    unfold pairLE at hxy hyx
    simp at hxy hyx ⊢
    omega⟩

theorem keyLEP_map_pairLE {a b : Room} (h : keyLEP a b) : pairLE (keyOf a) (keyOf b) := h

theorem getLastD_map {α β : Type} (f : α → β) :
    ∀ (l : List α) (d : α), (l.map f).getLastD (f d) = f (l.getLastD d) := by
  intro l
  induction l with
  | nil => intro d; rfl
  | cons a l ih =>
      intro d
      rw [List.map_cons, List.getLastD_cons, List.getLastD_cons, ih a]

/-- The pairwise travel time depends only on the two sort keys. -/
theorem travel_time_congr {a a2 b b2 : Room} (ha : keyOf a = keyOf a2) (hb : keyOf b = keyOf b2) :
    calculate_travel_time a b = calculate_travel_time a2 b2 := by
  have haf : a.floor = a2.floor := congrArg Prod.fst ha
  have hap : a.position = a2.position := congrArg Prod.snd ha
  have hbf : b.floor = b2.floor := congrArg Prod.fst hb
  have hbp : b.position = b2.position := congrArg Prod.snd hb
  unfold calculate_travel_time
  rw [haf, hap, hbf, hbp]

/-- `calculate_total_travel_time` is invariant under permutation of its
input (it sorts first, and ties in the key leave the extreme keys fixed). -/
theorem total_travel_time_perm {l1 l2 : List Room} (hp : List.Perm l1 l2) :
    calculate_total_travel_time l1 = calculate_total_travel_time l2 := by
  have hlen := hp.length_eq
  by_cases hle : l1.length ≤ 1
  · unfold calculate_total_travel_time
    rw [if_pos hle, if_pos (by omega)]
  · have hle2 : ¬ l2.length ≤ 1 := by omega
    have hperm12 : List.Perm (sortBy keyLEP l1) (sortBy keyLEP l2) :=
      (sortBy_perm keyLEP l1).trans (hp.trans (sortBy_perm keyLEP l2).symm)
    have hs1 : List.Sorted keyLEP (sortBy keyLEP l1) := sortBy_sorted keyLEP l1
    have hs2 : List.Sorted keyLEP (sortBy keyLEP l2) := sortBy_sorted keyLEP l2
    have hm1 : List.Sorted pairLE ((sortBy keyLEP l1).map keyOf) :=
      List.Pairwise.map keyOf (fun _ _ hab => keyLEP_map_pairLE hab) hs1
    have hm2 : List.Sorted pairLE ((sortBy keyLEP l2).map keyOf) :=
      List.Pairwise.map keyOf (fun _ _ hab => keyLEP_map_pairLE hab) hs2
    have heqmap : (sortBy keyLEP l1).map keyOf = (sortBy keyLEP l2).map keyOf :=
      List.eq_of_perm_of_sorted (hperm12.map keyOf) hm1 hm2
    have hlen1 : (sortBy keyLEP l1).length = l1.length := (sortBy_perm keyLEP l1).length_eq
    have hlen2 : (sortBy keyLEP l2).length = l2.length := (sortBy_perm keyLEP l2).length_eq
    obtain ⟨a1, t1, he1⟩ : ∃ a t, sortBy keyLEP l1 = a :: t := by
      cases hc : sortBy keyLEP l1 with
      | nil =>
          rw [hc] at hlen1
          simp at hlen1
          omega
      | cons a t => exact ⟨a, t, rfl⟩
    obtain ⟨a2, t2, he2⟩ : ∃ a t, sortBy keyLEP l2 = a :: t := by
      cases hc : sortBy keyLEP l2 with
      | nil =>
          rw [hc] at hlen2
          simp at hlen2
          omega
      | cons a t => exact ⟨a, t, rfl⟩
    rw [he1, he2] at heqmap
    simp only [List.map_cons, List.cons.injEq] at heqmap
    have hhead : keyOf a1 = keyOf a2 := heqmap.1
    have hlast : keyOf (t1.getLastD a1) = keyOf (t2.getLastD a2) := by
      have g1 : (t1.map keyOf).getLastD (keyOf a1) = keyOf (t1.getLastD a1) :=
        getLastD_map keyOf t1 a1
      have g2 : (t2.map keyOf).getLastD (keyOf a2) = keyOf (t2.getLastD a2) :=
        getLastD_map keyOf t2 a2
      rw [← g1, ← g2, heqmap.2, hhead]
    unfold calculate_total_travel_time
    rw [if_neg hle, if_neg hle2, he1, he2]
    exact travel_time_congr hhead hlast

/-- When no floor at all qualifies, tier 1 yields nothing. -/
theorem find_rooms_on_same_floor_none (s : List Room) (n : Nat)
    (hno : ∀ f, ¬ floorQualifies s n f) : find_rooms_on_same_floor s n = none := by
  unfold find_rooms_on_same_floor
  exact tryFloors_none s n _ fun f _ => hno f

/-- **C2** Tier-2 allocation: when no single floor has `n` available rooms,
`find_optimal_rooms` returns `[]` exactly when fewer than `n` rooms are
available in total, and otherwise an `n`-element sub-multiset of the
available rooms whose total travel time is minimal among all `n`-element
sub-multisets of the available rooms. -/
theorem tier2_optimal_allocation (s : List Room) (n : Nat) (h1 : 1 ≤ n) (h5 : n ≤ 5)
    (hno : ∀ f, ¬ floorQualifies s n f) :
    ((get_available_rooms s).length < n → find_optimal_rooms s n = []) ∧
    (n ≤ (get_available_rooms s).length →
      (find_optimal_rooms s n).length = n ∧
      List.Subperm (find_optimal_rooms s n) (get_available_rooms s) ∧
      ∀ c : List Room, List.Subperm c (get_available_rooms s) → c.length = n →
        calculate_total_travel_time (find_optimal_rooms s n) ≤
          calculate_total_travel_time c) := by
  have hsf := find_rooms_on_same_floor_none s n hno
  have hfo : find_optimal_rooms s n =
      (if (get_available_rooms s).length < n then []
       else
         match find_optimal_cross_floor_rooms (get_available_rooms s) n with
         | some (r :: rs) => r :: rs
         | _ => []) := by
    unfold find_optimal_rooms
    rw [hsf]
  constructor
  · intro hlt
    rw [hfo, if_pos hlt]
  · intro hge
    have hnlt : ¬ (get_available_rooms s).length < n := by omega
    have hne := combinations_ne_nil (get_available_rooms s) n hge
    obtain ⟨b, hb, hbmem, hbmin⟩ := pickBestCombo_spec _ hne
    have hblen : b.length = n := combinations_length _ _ _ hbmem
    have hb_ne : b ≠ [] := by
      intro h0
      rw [h0] at hblen
      simp at hblen
      omega
    obtain ⟨r, rs, hrrs⟩ := List.exists_cons_of_ne_nil hb_ne
    have hfo2 : find_optimal_rooms s n = b := by
      rw [hfo, if_neg hnlt]
      unfold find_optimal_cross_floor_rooms
      rw [hb, hrrs]
    refine ⟨by rw [hfo2]; exact hblen, ?_, ?_⟩
    · rw [hfo2]
      exact (combinations_sublist _ _ _ hbmem).subperm
    · intro c hc hclen
      rw [hfo2]
      obtain ⟨c2, hc2p, hc2s⟩ := hc
      have hc2mem : c2 ∈ combinations n (get_available_rooms s) := by
        have hmm := sublist_mem_combinations hc2s
        rwa [hc2p.length_eq, hclen] at hmm
      have hle2 : calculate_total_travel_time b ≤ calculate_total_travel_time c2 :=
        hbmin c2 hc2mem
      rwa [total_travel_time_perm hc2p] at hle2

/-- On the fresh inventory, floor 1 has at least two available rooms. -/
theorem tier1_hex_init : ∃ f, floorQualifies initRooms 2 f := ⟨1, by decide⟩

/-- **C1 witness** The tier-1 theorem applied to the fresh inventory with
`num_rooms = 2`. -/
theorem tier1_lowest_floor_allocation_witness :
    ((1 : Nat) ≤ 2 ∧ (2 : Nat) ≤ 5) ∧
    ((∀ r ∈ find_optimal_rooms initRooms 2, r.floor = Nat.find tier1_hex_init) ∧
    ((∃ i, i + 2 ≤ (floorRoomsSorted initRooms (Nat.find tier1_hex_init)).length ∧
        find_optimal_rooms initRooms 2 =
          consecWindow (floorRoomsSorted initRooms (Nat.find tier1_hex_init)) i 2 ∧
        isConsecutive (consecWindow (floorRoomsSorted initRooms (Nat.find tier1_hex_init)) i 2) =
          true ∧
        ∀ j, j + 2 ≤ (floorRoomsSorted initRooms (Nat.find tier1_hex_init)).length →
          isConsecutive (consecWindow (floorRoomsSorted initRooms (Nat.find tier1_hex_init)) j 2) =
            true →
          (consecWindow (floorRoomsSorted initRooms (Nat.find tier1_hex_init)) i 2).headI.position ≤
            (consecWindow (floorRoomsSorted initRooms (Nat.find tier1_hex_init)) j 2).headI.position) ∨
      ((∀ j, j + 2 ≤ (floorRoomsSorted initRooms (Nat.find tier1_hex_init)).length →
          isConsecutive (consecWindow (floorRoomsSorted initRooms (Nat.find tier1_hex_init)) j 2) =
            false) ∧
        find_optimal_rooms initRooms 2 =
          (floorRoomsSorted initRooms (Nat.find tier1_hex_init)).take 2))) :=
  ⟨⟨by decide, by decide⟩,
   tier1_lowest_floor_allocation initRooms 2 (by decide) (by decide) tier1_hex_init⟩

/-- A two-room state with one available room on each of two floors. -/
def crossFloorState : List Room :=
  [{ room_number := 101, floor := 1, position := 0,
     status := RoomStatus.AVAILABLE, guest_id := none },
   { room_number := 201, floor := 2, position := 0,
     status := RoomStatus.AVAILABLE, guest_id := none }]

/-- In `crossFloorState` no floor has two available rooms. -/
theorem crossFloorState_no_floor : ∀ f, ¬ floorQualifies crossFloorState 2 f := by
  intro f
  by_cases h1 : f = 1
  · rw [h1]
    decide
  · by_cases h2 : f = 2
    · rw [h2]
      decide
    · intro hq
      have h1f : ((1 : Nat) == f) = false := by
        simp
        omega
      have h2f : ((2 : Nat) == f) = false := by
        simp
        omega
      unfold floorQualifies availOnFloor get_available_rooms crossFloorState at hq
      simp [List.filter_cons, h1f, h2f] at hq

/-- **C2 witness** The tier-2 theorem applied to `crossFloorState` with
`num_rooms = 2`. -/
theorem tier2_optimal_allocation_witness :
    ((1 : Nat) ≤ 2 ∧ (2 : Nat) ≤ 5 ∧ ∀ f, ¬ floorQualifies crossFloorState 2 f) ∧
    (((get_available_rooms crossFloorState).length < 2 →
        find_optimal_rooms crossFloorState 2 = []) ∧
     (2 ≤ (get_available_rooms crossFloorState).length →
        (find_optimal_rooms crossFloorState 2).length = 2 ∧
        List.Subperm (find_optimal_rooms crossFloorState 2)
          (get_available_rooms crossFloorState) ∧
        ∀ c : List Room, List.Subperm c (get_available_rooms crossFloorState) → c.length = 2 →
          calculate_total_travel_time (find_optimal_rooms crossFloorState 2) ≤
            calculate_total_travel_time c)) :=
  ⟨⟨by decide, by decide, crossFloorState_no_floor⟩,
   tier2_optimal_allocation crossFloorState 2 (by decide) (by decide) crossFloorState_no_floor⟩

/- ### Size and membership facts about the allocator -/

theorem tryFloors_some_length (avail : List Room) (n : Nat) :
    ∀ fl : List Nat, ∀ w : List Room, tryFloors avail n fl = some w → w.length = n := by
  intro fl
  induction fl with
  | nil =>
      intro w hw
      simp [tryFloors] at hw
  | cons f fs ih =>
      intro w hw
      unfold tryFloors at hw
      by_cases hcond : n ≤ (sortBy posLEP (avail.filter fun r => r.floor == f)).length
      · rw [if_pos hcond] at hw
        cases hfc : find_consecutive_rooms n (sortBy posLEP (avail.filter fun r => r.floor == f)) with
        | some c =>
            obtain ⟨i, hi, hci, _, _⟩ := find_consecutive_rooms_some hfc
            cases c with
            | nil =>
                rw [hfc] at hw
                have hw2 : (sortBy posLEP (avail.filter fun r => r.floor == f)).take n = w :=
                  Option.some.inj hw
                rw [← hw2, List.length_take]
                omega
            | cons c0 cs =>
                rw [hfc] at hw
                have hw2 : c0 :: cs = w := Option.some.inj hw
                rw [← hw2, hci]
                exact consecWindow_length hi
        | none =>
            rw [hfc] at hw
            have hw2 : (sortBy posLEP (avail.filter fun r => r.floor == f)).take n = w :=
              Option.some.inj hw
            rw [← hw2, List.length_take]
            omega
      · rw [if_neg hcond] at hw
        exact ih w hw

theorem tryFloors_some_subperm (avail : List Room) (n : Nat) :
    ∀ fl : List Nat, ∀ w : List Room, tryFloors avail n fl = some w →
      List.Subperm w avail := by
  intro fl
  induction fl with
  | nil =>
      intro w hw
      simp [tryFloors] at hw
  | cons f fs ih =>
      intro w hw
      unfold tryFloors at hw
      by_cases hcond : n ≤ (sortBy posLEP (avail.filter fun r => r.floor == f)).length
      · rw [if_pos hcond] at hw
        have hsub : ∀ v : List Room,
            v.Sublist (sortBy posLEP (avail.filter fun r => r.floor == f)) →
            List.Subperm v avail := by
          intro v hv
          have h1v : List.Subperm v (avail.filter fun r => r.floor == f) :=
            hv.subperm.trans (sortBy_perm posLEP _).subperm
          exact h1v.trans (List.filter_sublist avail).subperm
        cases hfc : find_consecutive_rooms n (sortBy posLEP (avail.filter fun r => r.floor == f)) with
        | some c =>
            obtain ⟨i, hi, hci, _, _⟩ := find_consecutive_rooms_some hfc
            cases c with
            | nil =>
                rw [hfc] at hw
                have hw2 : (sortBy posLEP (avail.filter fun r => r.floor == f)).take n = w :=
                  Option.some.inj hw
                exact hsub w (hw2 ▸ List.take_sublist n _)
            | cons c0 cs =>
                rw [hfc] at hw
                have hw2 : c0 :: cs = w := Option.some.inj hw
                refine hsub w ?_
                rw [← hw2, hci]
                exact consecWindow_sublist _ i n
        | none =>
            rw [hfc] at hw
            have hw2 : (sortBy posLEP (avail.filter fun r => r.floor == f)).take n = w :=
              Option.some.inj hw
            exact hsub w (hw2 ▸ List.take_sublist n _)
      · rw [if_neg hcond] at hw
        exact ih w hw

theorem find_rooms_on_same_floor_length {s : List Room} {n : Nat} {w : List Room}
    (hw : find_rooms_on_same_floor s n = some w) : w.length = n := by
  unfold find_rooms_on_same_floor at hw
  exact tryFloors_some_length _ n _ w hw

theorem find_rooms_on_same_floor_subperm {s : List Room} {n : Nat} {w : List Room}
    (hw : find_rooms_on_same_floor s n = some w) :
    List.Subperm w (get_available_rooms s) := by
  unfold find_rooms_on_same_floor at hw
  exact tryFloors_some_subperm _ n _ w hw

/-- Every allocation is a sub-multiset of the available rooms. -/
theorem find_optimal_subperm (s : List Room) (n : Nat) :
    List.Subperm (find_optimal_rooms s n) (get_available_rooms s) := by
  unfold find_optimal_rooms
  cases hsf : find_rooms_on_same_floor s n with
  | some w =>
      cases w with
      | nil =>
          by_cases hlt : (get_available_rooms s).length < n
          · rw [if_pos hlt]
            exact (List.nil_sublist _).subperm
          · rw [if_neg hlt]
            cases hcf : find_optimal_cross_floor_rooms (get_available_rooms s) n with
            | some b =>
                cases b with
                | nil => exact (List.nil_sublist _).subperm
                | cons r rs =>
                    unfold find_optimal_cross_floor_rooms at hcf
                    obtain ⟨b2, hb2, hb2mem, _⟩ :=
                      pickBestCombo_spec (combinations n (get_available_rooms s))
                        (combinations_ne_nil _ n (by omega))
                    rw [hb2] at hcf
                    have hbb : b2 = r :: rs := Option.some.inj hcf
                    have hsp := (combinations_sublist _ _ _ hb2mem).subperm
                    rw [hbb] at hsp
                    exact hsp
            | none => exact (List.nil_sublist _).subperm
      | cons r rs => exact find_rooms_on_same_floor_subperm hsf
  | none =>
      by_cases hlt : (get_available_rooms s).length < n
      · rw [if_pos hlt]
        exact (List.nil_sublist _).subperm
      · rw [if_neg hlt]
        cases hcf : find_optimal_cross_floor_rooms (get_available_rooms s) n with
        | some b =>
            cases b with
            | nil => exact (List.nil_sublist _).subperm
            | cons r rs =>
                unfold find_optimal_cross_floor_rooms at hcf
                obtain ⟨b2, hb2, hb2mem, _⟩ :=
                  pickBestCombo_spec (combinations n (get_available_rooms s))
                    (combinations_ne_nil _ n (by omega))
                rw [hb2] at hcf
                have hbb : b2 = r :: rs := Option.some.inj hcf
                have hsp := (combinations_sublist _ _ _ hb2mem).subperm
                rw [hbb] at hsp
                exact hsp
        | none => exact (List.nil_sublist _).subperm

/-- With enough available rooms, the allocator returns exactly `n` rooms. -/
theorem find_optimal_length_eq (s : List Room) (n : Nat) (_h1 : 1 ≤ n)
    (hge : n ≤ (get_available_rooms s).length) : (find_optimal_rooms s n).length = n := by
  unfold find_optimal_rooms
  cases hsf : find_rooms_on_same_floor s n with
  | some w =>
      have hwlen : w.length = n := find_rooms_on_same_floor_length hsf
      cases w with
      | nil =>
          simp at hwlen
          omega
      | cons r rs => exact hwlen
  | none =>
      have hnlt : ¬ (get_available_rooms s).length < n := by omega
      rw [if_neg hnlt]
      obtain ⟨b, hb, hbmem, _⟩ :=
        pickBestCombo_spec (combinations n (get_available_rooms s))
          (combinations_ne_nil _ n hge)
      have hblen : b.length = n := combinations_length _ _ _ hbmem
      cases hcf : find_optimal_cross_floor_rooms (get_available_rooms s) n with
      | some b2 =>
          unfold find_optimal_cross_floor_rooms at hcf
          rw [hb] at hcf
          have hbb : b = b2 := Option.some.inj hcf
          rw [← hbb] at *
          cases hbc : b with
          | nil =>
              rw [hbc] at hblen
              simp at hblen
              omega
          | cons r rs =>
              rw [hbc] at hblen
              exact hblen
      | none =>
          unfold find_optimal_cross_floor_rooms at hcf
          rw [hb] at hcf
          cases hcf

/-- With too few available rooms, the allocator returns the empty list. -/
theorem find_optimal_nil_of_short (s : List Room) (n : Nat) (_h1 : 1 ≤ n)
    (hlt : (get_available_rooms s).length < n) : find_optimal_rooms s n = [] := by
  unfold find_optimal_rooms
  cases hsf : find_rooms_on_same_floor s n with
  | some w =>
      have hwlen : w.length = n := find_rooms_on_same_floor_length hsf
      have hwsp : List.Subperm w (get_available_rooms s) := find_rooms_on_same_floor_subperm hsf
      have hcontra : n ≤ (get_available_rooms s).length := hwlen ▸ hwsp.length_le
      omega
  | none => rw [if_pos hlt]

/-- The inventory left behind by `book_rooms`, written as the source
mutates it: nothing is touched on either validation failure, and on
success exactly the allocated rooms are marked.  (The source raises before
any mutation, so a failing call leaves every room as it was.) -/
def book_rooms_post (rooms : List Room) (num_rooms : Int) (guest_id : Option String) :
    List Room :=
  if num_rooms < 1 ∨ num_rooms > 5 then rooms
  else
    let n := num_rooms.toNat
    let optimal_rooms := find_optimal_rooms rooms n
    if optimal_rooms.length < n then rooms
    else
      let booked_room_numbers : List Nat := optimal_rooms.map fun r => r.room_number
      rooms.map fun r =>
        if r.room_number ∈ booked_room_numbers then
          { r with status := RoomStatus.BOOKED, guest_id := guest_id }
        else r

/-- **C3** Booking errors and atomicity: `book_rooms` fails with
InvalidArgument exactly when `num_rooms` is outside `[1,5]`; it fails with
InsufficientInventory — reporting the requested and currently-available
counts — exactly when `num_rooms` is in `[1,5]` and fewer rooms are
available; every failure leaves the inventory unchanged, and success
commits exactly `num_rooms` rooms. -/
theorem book_rooms_error_spec (s : List Room) (num_rooms : Int) (g : Option String) :
    (book_rooms s num_rooms g = Except.error BookError.invalidArgument ↔
      (num_rooms < 1 ∨ 5 < num_rooms)) ∧
    (∀ req av, book_rooms s num_rooms g = Except.error
        (BookError.insufficientInventory req av) ↔
      (1 ≤ num_rooms ∧ num_rooms ≤ 5 ∧
        (get_available_rooms s).length < num_rooms.toNat ∧
        req = num_rooms ∧ av = (get_available_rooms s).length)) ∧
    (∀ e, book_rooms s num_rooms g = Except.error e → book_rooms_post s num_rooms g = s) ∧
    (∀ res, book_rooms s num_rooms g = Except.ok res →
      book_rooms_post s num_rooms g = res.state ∧
      res.booked_room_numbers.length = num_rooms.toNat) := by
  by_cases hv : num_rooms < 1 ∨ 5 < num_rooms
  · have hbook : book_rooms s num_rooms g = Except.error BookError.invalidArgument := by
      unfold book_rooms
      rw [if_pos hv]
    have hpost : book_rooms_post s num_rooms g = s := by
      unfold book_rooms_post
      rw [if_pos hv]
    refine ⟨by simp [hbook, hv], ?_, ?_, ?_⟩
    · intro req av
      rw [hbook]
      constructor
      · intro h
        simp at h
      · intro h
        obtain ⟨ha, hb, _⟩ := h
        omega
    · intro e _
      exact hpost
    · intro res hres
      rw [hbook] at hres
      cases hres
  · have h1 : 1 ≤ num_rooms := by omega
    have h5 : num_rooms ≤ 5 := by omega
    have h1n : 1 ≤ num_rooms.toNat := by omega
    by_cases hshort : (find_optimal_rooms s num_rooms.toNat).length < num_rooms.toNat
    · have havlt : (get_available_rooms s).length < num_rooms.toNat := by
        by_contra hge
        rw [find_optimal_length_eq s num_rooms.toNat h1n (by omega)] at hshort
        omega
      have hbook : book_rooms s num_rooms g = Except.error
          (BookError.insufficientInventory num_rooms (get_available_rooms s).length) := by
        unfold book_rooms
        rw [if_neg hv]
        simp only [if_pos hshort]
      have hpost : book_rooms_post s num_rooms g = s := by
        unfold book_rooms_post
        rw [if_neg hv]
        simp only [if_pos hshort]
      refine ⟨?_, ?_, ?_, ?_⟩
      · rw [hbook]
        constructor
        · intro h
          simp at h
        · intro h
          exact absurd h hv
      · intro req av
        rw [hbook]
        simp only [Except.error.injEq, BookError.insufficientInventory.injEq]
        constructor
        · intro hre
          exact ⟨h1, h5, havlt, hre.1.symm, hre.2.symm⟩
        · intro hre
          exact ⟨hre.2.2.2.1.symm, hre.2.2.2.2.symm⟩
      · intro e _
        exact hpost
      · intro res hres
        rw [hbook] at hres
        cases hres
    · have hlen : (find_optimal_rooms s num_rooms.toNat).length = num_rooms.toNat := by
        by_cases hge : num_rooms.toNat ≤ (get_available_rooms s).length
        · exact find_optimal_length_eq s num_rooms.toNat h1n hge
        · rw [find_optimal_nil_of_short s num_rooms.toNat h1n (by omega)] at hshort ⊢
          simp at hshort
          omega
      have hbook : book_rooms s num_rooms g = Except.ok
          { state := s.map fun r =>
              if r.room_number ∈ ((find_optimal_rooms s num_rooms.toNat).map
                  fun r2 => r2.room_number) then
                { r with status := RoomStatus.BOOKED, guest_id := g }
              else r
            booked_room_numbers := (find_optimal_rooms s num_rooms.toNat).map
              fun r => r.room_number
            total_travel_time := calculate_total_travel_time
              ((find_optimal_rooms s num_rooms.toNat).map fun r =>
                { r with status := RoomStatus.BOOKED, guest_id := g })
            room_paths := ((find_optimal_rooms s num_rooms.toNat).map fun r =>
              { r with status := RoomStatus.BOOKED, guest_id := g }).map
                get_path_from_reception } := by
        unfold book_rooms
        rw [if_neg hv]
        simp only [if_neg hshort]
      have hpost : book_rooms_post s num_rooms g = s.map fun r =>
          if r.room_number ∈ ((find_optimal_rooms s num_rooms.toNat).map
              fun r2 => r2.room_number) then
            { r with status := RoomStatus.BOOKED, guest_id := g }
          else r := by
        unfold book_rooms_post
        rw [if_neg hv]
        simp only [if_neg hshort]
      refine ⟨?_, ?_, ?_, ?_⟩
      · rw [hbook]
        constructor
        · intro h
          simp at h
        · intro h
          exact absurd h hv
      · intro req av
        rw [hbook]
        constructor
        · intro h
          simp at h
        · intro h
          have hsp := (find_optimal_subperm s num_rooms.toNat).length_le
          rw [hlen] at hsp
          have hcontra := h.2.2.1
          omega
      · intro e he
        rw [hbook] at he
        cases he
      · intro res hres
        rw [hbook] at hres
        have hres2 := Except.ok.inj hres
        rw [← hres2]
        refine ⟨hpost, ?_⟩
        rw [List.length_map]
        exact hlen

theorem subperm_map {α β : Type} (f : α → β) {l1 l2 : List α} (h : List.Subperm l1 l2) :
    List.Subperm (l1.map f) (l2.map f) := by
  obtain ⟨l, hlp, hls⟩ := h
  exact ⟨l.map f, hlp.map f, hls.map f⟩

theorem nodup_of_subperm {α : Type} {l1 l2 : List α} (h : List.Subperm l1 l2)
    (hnd : l2.Nodup) : l1.Nodup := by
  obtain ⟨l, hlp, hls⟩ := h
  exact hlp.nodup_iff.mp (hnd.sublist hls)

/-- **C10** Frame effect of a successful booking: the returned numbers are
exactly `num_rooms` distinct numbers of previously-available rooms; those
rooms come out BOOKED with the given guest id, every other room is
untouched, and the inventory keeps its length. -/
theorem book_rooms_frame (s : List Room) (num_rooms : Int) (g : Option String)
    (res : BookResult) (h1 : 1 ≤ num_rooms) (h5 : num_rooms ≤ 5)
    (hnd : (s.map fun r => r.room_number).Nodup)
    (hok : book_rooms s num_rooms g = Except.ok res) :
    res.booked_room_numbers.length = num_rooms.toNat ∧
    res.booked_room_numbers.Nodup ∧
    (∀ num ∈ res.booked_room_numbers, ∃ r ∈ s, r.room_number = num ∧
      r.status = RoomStatus.AVAILABLE) ∧
    res.state.length = s.length ∧
    (∀ i : Nat, ∀ r : Room, s[i]? = some r →
      (r.room_number ∈ res.booked_room_numbers →
        res.state[i]? = some { r with status := RoomStatus.BOOKED, guest_id := g } ∧
        r.status = RoomStatus.AVAILABLE) ∧
      (r.room_number ∉ res.booked_room_numbers → res.state[i]? = some r)) := by
  have hv : ¬ (num_rooms < 1 ∨ 5 < num_rooms) := by omega
  have h1n : 1 ≤ num_rooms.toNat := by omega
  by_cases hshort : (find_optimal_rooms s num_rooms.toNat).length < num_rooms.toNat
  · unfold book_rooms at hok
    rw [if_neg hv] at hok
    simp only [if_pos hshort] at hok
    cases hok
  · unfold book_rooms at hok
    rw [if_neg hv] at hok
    simp only [if_neg hshort] at hok
    have hres := Except.ok.inj hok
    rw [← hres]
    have hoptlen : (find_optimal_rooms s num_rooms.toNat).length = num_rooms.toNat := by
      by_cases hge : num_rooms.toNat ≤ (get_available_rooms s).length
      · exact find_optimal_length_eq s num_rooms.toNat h1n hge
      · rw [find_optimal_nil_of_short s num_rooms.toNat h1n (by omega)] at hshort
        simp at hshort
        omega
    have hsp_avail : List.Subperm (find_optimal_rooms s num_rooms.toNat)
        (get_available_rooms s) := find_optimal_subperm s num_rooms.toNat
    have hsp_s : List.Subperm (find_optimal_rooms s num_rooms.toNat) s :=
      hsp_avail.trans (List.filter_sublist s).subperm
    have hmem_avail : ∀ r2 ∈ find_optimal_rooms s num_rooms.toNat,
        r2 ∈ s ∧ r2.status = RoomStatus.AVAILABLE := by
      intro r2 hr2
      have hr2a : r2 ∈ get_available_rooms s := hsp_avail.subset hr2
      have hr2f := List.mem_filter.mp hr2a
      exact ⟨hr2f.1, by simpa using hr2f.2⟩
    refine ⟨?_, ?_, ?_, ?_, ?_⟩
    · rw [List.length_map]
      exact hoptlen
    · exact nodup_of_subperm (subperm_map (fun r => r.room_number) hsp_s) hnd
    · intro num hnum
      obtain ⟨r2, hr2, hr2n⟩ := List.mem_map.mp hnum
      obtain ⟨hr2s, hr2av⟩ := hmem_avail r2 hr2
      exact ⟨r2, hr2s, hr2n, hr2av⟩
    · rw [List.length_map]
    · intro i r hsi
      have hri : r ∈ s := by
        have hx := List.getElem?_eq_some_iff.mp hsi
        obtain ⟨hilt, hieq⟩ := hx
        rw [← hieq]
        exact List.getElem_mem hilt
      have hmapi : (s.map fun r0 =>
          if r0.room_number ∈ ((find_optimal_rooms s num_rooms.toNat).map
              fun r2 => r2.room_number) then
            { r0 with status := RoomStatus.BOOKED, guest_id := g }
          else r0)[i]? = some (if r.room_number ∈
              ((find_optimal_rooms s num_rooms.toNat).map fun r2 => r2.room_number) then
            { r with status := RoomStatus.BOOKED, guest_id := g }
          else r) := by
        rw [List.getElem?_map, hsi]
        rfl
      constructor
      · intro hin
        constructor
        · rw [hmapi]
          rw [if_pos hin]
        · obtain ⟨r2, hr2, hr2n⟩ := List.mem_map.mp hin
          obtain ⟨hr2s, hr2av⟩ := hmem_avail r2 hr2
          have hreq : r2 = r :=
            List.inj_on_of_nodup_map hnd hr2s hri hr2n
          rw [← hreq]
          exact hr2av
      · intro hnin
        rw [hmapi]
        rw [if_neg hnin]

/-- **C3 witness** Booking six rooms on the fresh inventory is rejected as
an invalid argument, by the error specification. -/
theorem book_rooms_error_spec_witness :
    book_rooms initRooms 6 none = Except.error BookError.invalidArgument :=
  ((book_rooms_error_spec initRooms 6 none).1).mpr (by decide)

/-- A two-room single-floor state used to exercise the booking frame. -/
def c10state : List Room :=
  [{ room_number := 101, floor := 1, position := 0,
     status := RoomStatus.AVAILABLE, guest_id := none },
   { room_number := 102, floor := 1, position := 1,
     status := RoomStatus.AVAILABLE, guest_id := none }]

/-- The result of booking one room in `c10state` for guest "guest". -/
def c10result : BookResult :=
  { state := [{ room_number := 101, floor := 1, position := 0,
                status := RoomStatus.BOOKED, guest_id := some "guest" },
              { room_number := 102, floor := 1, position := 1,
                status := RoomStatus.AVAILABLE, guest_id := none }]
    booked_room_numbers := [101]
    total_travel_time := 0
    room_paths := [{ steps := ["Take stairs/lift up 1 floor(s) (2 minutes)",
                               "Room 101 is located at the stairs on Floor 1"],
                     total_time := 2, room_number := 101, floor := 1, position := 0 }] }

/-- **C10 witness** The frame theorem applied to booking one room in
`c10state`. -/
theorem book_rooms_frame_witness :
    ((1 : Int) ≤ 1 ∧ (1 : Int) ≤ 5 ∧ (c10state.map fun r => r.room_number).Nodup ∧
      book_rooms c10state 1 (some "guest") = Except.ok c10result) ∧
    (c10result.booked_room_numbers.length = (1 : Int).toNat ∧
     c10result.booked_room_numbers.Nodup ∧
     (∀ num ∈ c10result.booked_room_numbers, ∃ r ∈ c10state, r.room_number = num ∧
       r.status = RoomStatus.AVAILABLE) ∧
     c10result.state.length = c10state.length ∧
     (∀ i : Nat, ∀ r : Room, c10state[i]? = some r →
       (r.room_number ∈ c10result.booked_room_numbers →
         c10result.state[i]? =
           some { r with status := RoomStatus.BOOKED, guest_id := some "guest" } ∧
         r.status = RoomStatus.AVAILABLE) ∧
       (r.room_number ∉ c10result.booked_room_numbers →
         c10result.state[i]? = some r))) :=
  ⟨⟨by decide, by decide, by decide, rfl⟩,
   book_rooms_frame c10state 1 (some "guest") c10result
     (by decide) (by decide) (by decide) rfl⟩

/- ### The inventory skeleton is preserved by every operation -/

/-- The immutable part of a room: number, floor, position. -/
def skel (r : Room) : Nat × Nat × Nat := (r.room_number, r.floor, r.position)

theorem map_skel_map {f : Room → Room} (hf : ∀ r, skel (f r) = skel r) (l : List Room) :
    (l.map f).map skel = l.map skel := by
  rw [List.map_map]
  exact List.map_congr_left fun r _ => hf r

/-- The success state of `book_rooms`, extracted. -/
theorem book_ok_state {s : List Room} {n : Int} {g : Option String} {res : BookResult}
    (hok : book_rooms s n g = Except.ok res) :
    res.state = s.map fun r =>
      if r.room_number ∈ ((find_optimal_rooms s n.toNat).map fun r2 => r2.room_number) then
        { r with status := RoomStatus.BOOKED, guest_id := g }
      else r := by
  unfold book_rooms at hok
  by_cases hv : n < 1 ∨ n > 5
  · rw [if_pos hv] at hok
    cases hok
  · rw [if_neg hv] at hok
    by_cases hshort : (find_optimal_rooms s n.toNat).length < n.toNat
    · simp only [if_pos hshort] at hok
      cases hok
    · simp only [if_neg hshort] at hok
      rw [← Except.ok.inj hok]

theorem foldl_bookOne_skel (gids : Nat → String) :
    ∀ (L : List (Nat × Nat)) (st : List Room),
      (L.foldl (fun st2 p => bookOne st2 p.2 (some (gids p.1))) st).map skel =
        st.map skel := by
  intro L
  induction L with
  | nil => intro st; rfl
  | cons p L ih =>
      intro st
      rw [List.foldl_cons, ih]
      apply map_skel_map
      intro r
      by_cases hc : (r.room_number == p.2) = true
      · rw [if_pos hc]
        rfl
      · rw [if_neg hc]

theorem map_skel_mark (l : List Room) (R : List Nat) (g : Option String) :
    (l.map fun r => if r.room_number ∈ R then
        { r with status := RoomStatus.BOOKED, guest_id := g }
      else r).map skel = l.map skel := by
  apply map_skel_map
  intro r
  by_cases hc : r.room_number ∈ R
  · rw [if_pos hc]
    rfl
  · rw [if_neg hc]

theorem map_skel_reset (l : List Room) :
    (l.map fun r => { r with status := RoomStatus.AVAILABLE, guest_id := none }).map skel =
      l.map skel := by
  apply map_skel_map
  intro r
  rfl

/-- Every reachable state has the same (number, floor, position) skeleton
as the fresh inventory. -/
theorem reach_skel {s : List Room} (h : Reachable s) :
    s.map skel = initRooms.map skel := by
  induction h with
  | init => rfl
  | book hr hok ih =>
      rw [book_ok_state hok, map_skel_mark, ih]
  | reset hr ih =>
      unfold reset_all_bookings
      rw [map_skel_reset, ih]
  | random hr hperm ih =>
      unfold generate_random_occupancy
      rw [foldl_bookOne_skel]
      unfold reset_all_bookings
      rw [map_skel_reset, ih]

/-- Well-formedness of a single room per the inventory scheme. -/
def RoomWellFormed (r : Room) : Prop :=
  1 ≤ r.floor ∧ r.floor ≤ 10 ∧ (r.floor ≤ 9 → r.position ≤ 9) ∧
  (r.floor = 10 → r.position ≤ 6) ∧ r.room_number = r.floor * 100 + r.position + 1

instance (r : Room) : Decidable (RoomWellFormed r) := by
  unfold RoomWellFormed; infer_instance

/-- Well-formedness on the skeleton triple. -/
def TripleWellFormed (t : Nat × Nat × Nat) : Prop :=
  1 ≤ t.2.1 ∧ t.2.1 ≤ 10 ∧ (t.2.1 ≤ 9 → t.2.2 ≤ 9) ∧
  (t.2.1 = 10 → t.2.2 ≤ 6) ∧ t.1 = t.2.1 * 100 + t.2.2 + 1

instance (t : Nat × Nat × Nat) : Decidable (TripleWellFormed t) := by
  unfold TripleWellFormed; infer_instance

/-- **C4** Inventory invariant: every reachable state has exactly 97 rooms
with the fixed floor/position scheme, unique derived room numbers, and
statistics reporting total 97 with available + booked = total. -/
theorem inventory_invariant (s : List Room) (h : Reachable s) :
    s.length = 97 ∧
    (∀ r ∈ s, RoomWellFormed r) ∧
    (s.map fun r => r.room_number).Nodup ∧
    (get_statistics s).total_rooms = 97 ∧
    (get_statistics s).available_rooms + (get_statistics s).booked_rooms =
      (get_statistics s).total_rooms := by
  have hskel := reach_skel h
  have hlen : s.length = 97 := by
    have hl2 := congrArg List.length hskel
    rw [List.length_map, List.length_map] at hl2
    rw [hl2]
    decide
  refine ⟨hlen, ?_, ?_, ?_, ?_⟩
  · intro r hr
    have hmem : skel r ∈ initRooms.map skel := by
      rw [← hskel]
      exact List.mem_map_of_mem skel hr
    have hall : ∀ t ∈ initRooms.map skel, TripleWellFormed t := by decide
    exact hall (skel r) hmem
  · have hnum : s.map (fun r => r.room_number) =
        initRooms.map fun r => r.room_number := by
      have h1 := congrArg (List.map fun t : Nat × Nat × Nat => t.1) hskel
      rw [List.map_map, List.map_map] at h1
      exact h1
    rw [hnum]
    decide
  · show s.length = 97
    exact hlen
  · show (s.length - (s.countP fun r => r.status == RoomStatus.BOOKED)) +
      (s.countP fun r => r.status == RoomStatus.BOOKED) = s.length
    have hb := List.countP_le_length (fun r => r.status == RoomStatus.BOOKED) (l := s)
    omega

/-- **C4 witness** The invariant at the initial (reachable) inventory. -/
theorem inventory_invariant_witness :
    initRooms.length = 97 ∧
    (∀ r ∈ initRooms, RoomWellFormed r) ∧
    (initRooms.map fun r => r.room_number).Nodup ∧
    (get_statistics initRooms).total_rooms = 97 ∧
    (get_statistics initRooms).available_rooms + (get_statistics initRooms).booked_rooms =
      (get_statistics initRooms).total_rooms :=
  inventory_invariant initRooms Reachable.init

/- ### Counting booked rooms in generate_random_occupancy -/

theorem bookOne_map_number (st : List Room) (num : Nat) (g : Option String) :
    (bookOne st num g).map (fun r => r.room_number) = st.map fun r => r.room_number := by
  unfold bookOne
  rw [List.map_map]
  apply List.map_congr_left
  intro r _
  by_cases hc : (r.room_number == num) = true
  · simp only [Function.comp]
    rw [if_pos hc]
  · simp only [Function.comp]
    rw [if_neg hc]

/-- Booking one available room (unique by number) raises the BOOKED count
by exactly one. -/
theorem bookOne_countP (num : Nat) (g : Option String) :
    ∀ st : List Room, (st.map fun r => r.room_number).Nodup →
      (∃ r, r ∈ st ∧ r.room_number = num ∧ r.status = RoomStatus.AVAILABLE) →
      (bookOne st num g).countP (fun r => r.status == RoomStatus.BOOKED) =
        (st.countP fun r => r.status == RoomStatus.BOOKED) + 1 := by
  intro st
  induction st with
  | nil =>
      intro _ hex
      obtain ⟨r, hr, _⟩ := hex
      simp at hr
  | cons x st ih =>
      intro hnd hex
      obtain ⟨r, hr, hrn, hrav⟩ := hex
      rw [List.map_cons, List.nodup_cons] at hnd
      by_cases hc : (x.room_number == num) = true
      · have hxnum : x.room_number = num := by simpa using hc
        have hnost : ∀ r2 ∈ st, r2.room_number ≠ num := by
          intro r2 hr2 hr2n
          exact hnd.1 (by
            rw [hxnum, ← hr2n]
            exact List.mem_map_of_mem _ hr2)
        have hxav : x.status = RoomStatus.AVAILABLE := by
          rcases List.mem_cons.mp hr with heq | hmem
          · rw [← heq]
            exact hrav
          · exact absurd hrn (hnost r hmem)
        have hmapst : (st.map fun r2 =>
            if r2.room_number == num then
              { r2 with status := RoomStatus.BOOKED, guest_id := g }
            else r2) = st := by
          have hcongr : (st.map fun r2 =>
              if r2.room_number == num then
                { r2 with status := RoomStatus.BOOKED, guest_id := g }
              else r2) = st.map id := by
            apply List.map_congr_left
            intro r2 hr2
            rw [if_neg (by simpa using hnost r2 hr2)]
            rfl
          rw [hcongr, List.map_id]
        unfold bookOne
        rw [List.map_cons, if_pos hc, hmapst]
        rw [List.countP_cons, List.countP_cons]
        have hxbook : (({ x with status := RoomStatus.BOOKED, guest_id := g } : Room).status ==
            RoomStatus.BOOKED) = true := by rfl
        have hxap : (x.status == RoomStatus.BOOKED) = false := by
          rw [hxav]
          rfl
        rw [hxbook, hxap]
        simp
      · have hrst : r ∈ st := by
          rcases List.mem_cons.mp hr with heq | hmem
          · exfalso
            apply hc
            rw [heq] at hrn
            simpa using hrn
          · exact hmem
        unfold bookOne
        rw [List.map_cons, if_neg hc]
        rw [List.countP_cons, List.countP_cons]
        have hrec := ih hnd.2 ⟨r, hrst, hrn, hrav⟩
        unfold bookOne at hrec
        rw [hrec]
        omega

/-- Folding the booking loop over distinct, present, available room numbers
adds exactly their count to the BOOKED tally. -/
theorem foldl_bookOne_countP (gids : Nat → String) :
    ∀ (L : List Nat) (k : Nat) (st : List Room),
      (st.map fun r => r.room_number).Nodup →
      L.Nodup →
      (∀ num ∈ L, ∃ r, r ∈ st ∧ r.room_number = num ∧ r.status = RoomStatus.AVAILABLE) →
      ((L.enumFrom k).foldl (fun st2 p => bookOne st2 p.2 (some (gids p.1))) st).countP
          (fun r => r.status == RoomStatus.BOOKED) =
        (st.countP fun r => r.status == RoomStatus.BOOKED) + L.length := by
  intro L
  induction L with
  | nil =>
      intro k st _ _ _
      rfl
  | cons num L ih =>
      intro k st hnd hLnd hav
      rw [List.enumFrom_cons, List.foldl_cons]
      have h1 := bookOne_countP num (some (gids k)) st hnd (hav num (by simp))
      have hnd1 : ((bookOne st num (some (gids k))).map fun r => r.room_number).Nodup := by
        rw [bookOne_map_number]
        exact hnd
      have hav1 : ∀ num2 ∈ L, ∃ r, r ∈ bookOne st num (some (gids k)) ∧
          r.room_number = num2 ∧ r.status = RoomStatus.AVAILABLE := by
        intro num2 hnum2
        obtain ⟨r, hr, hrn, hrav⟩ := hav num2 (List.mem_cons_of_mem num hnum2)
        have hneq : (r.room_number == num) = false := by
          simp
          rw [hrn]
          intro heq
          exact (List.nodup_cons.mp hLnd).1 (heq ▸ hnum2)
        refine ⟨r, ?_, hrn, hrav⟩
        have hfix : (if r.room_number == num then
            { r with status := RoomStatus.BOOKED, guest_id := some (gids k) }
          else r) = r := by rw [hneq]; rfl
        unfold bookOne
        rw [← hfix]
        exact List.mem_map_of_mem _ hr
      rw [ih (k + 1) _ hnd1 (List.nodup_cons.mp hLnd).2 hav1, h1]
      rw [List.length_cons]
      omega

theorem reset_map_number (s : List Room) :
    ((reset_all_bookings s).map fun r => r.room_number) = s.map fun r => r.room_number := by
  unfold reset_all_bookings
  rw [List.map_map]
  apply List.map_congr_left
  intro r _
  rfl

/- ### Evaluating the float-rounded booking count -/

theorem int_log_eq {x : Rat} {e : Int} (hx : 0 < x) (h1 : (2 : Rat) ^ e ≤ x)
    (h2 : x < (2 : Rat) ^ (e + 1)) : Int.log 2 x = e := by
  have hcast : ((2 : Nat) : Rat) = (2 : Rat) := by norm_num
  have ha : e ≤ Int.log 2 x := by
    rw [← Int.zpow_le_iff_le_log one_lt_two hx, hcast]
    exact h1
  have hb : Int.log 2 x < e + 1 := by
    rw [← Int.lt_zpow_iff_log_lt one_lt_two hx, hcast]
    exact h2
  omega

theorem roundHalfEven_intCast (n : Int) : roundHalfEven (n : Rat) = n := by
  unfold roundHalfEven
  rw [Int.floor_intCast]
  norm_num

theorem roundHalfEven_up {x : Rat} {n : Int} (hfl : ⌊x⌋ = n) (hfr : 1/2 < x - (n : Rat)) :
    roundHalfEven x = n + 1 := by
  unfold roundHalfEven
  rw [hfl, if_neg (by linarith), if_pos hfr]

theorem fl64_eval_pos {x : Rat} {e m : Int} (hx : 0 < x) (hlog : Int.log 2 x = e)
    (hround : roundHalfEven (x * 2 ^ ((52 : Int) - e)) = m) :
    fl64 x = (m : Rat) * 2 ^ (e - 52) := by
  unfold fl64
  rw [if_neg (ne_of_gt hx), if_pos hx, hlog, hround]

/-- The double just below `2100/97`: the percentage 21.649484536082472,
whose IEEE 754 binary64 value is `6093788155591521 / 2^48`. -/
def pStar : Rat := 6093788155591521 / 2 ^ 48

/-- At `pStar`, the float product `97 * p` rounds up to exactly 2100.0. -/
theorem fl64_97_pStar : fl64 ((97 : Rat) * pStar) = 2100 := by
  have hval : fl64 ((97 : Rat) * pStar) =
      ((4617948836659200 : Int) : Rat) * 2 ^ ((11 : Int) - 52) := by
    apply fl64_eval_pos
    · unfold pStar
      norm_num
    · apply int_log_eq
      · unfold pStar
        norm_num
      · unfold pStar
        norm_num
      · unfold pStar
        norm_num
    · have hfloor : ⌊(97 : Rat) * pStar * 2 ^ ((52 : Int) - 11)⌋ = 4617948836659199 := by
        rw [Int.floor_eq_iff]
        constructor
        · unfold pStar
          norm_num
        · unfold pStar
          norm_num
      have hup := roundHalfEven_up hfloor (by
        unfold pStar
        norm_num)
      rw [hup]
      norm_num
  rw [hval]
  norm_num

/-- The second rounding is exact: `2100.0 / 100` is exactly 21.0. -/
theorem fl64_21 : fl64 ((2100 : Rat) / 100) = 21 := by
  have h2100 : (2100 : Rat) / 100 = 21 := by norm_num
  rw [h2100]
  have hval : fl64 (21 : Rat) = ((5910974510923776 : Int) : Rat) * 2 ^ ((4 : Int) - 52) := by
    apply fl64_eval_pos
    · norm_num
    · apply int_log_eq
      · norm_num
      · norm_num
      · norm_num
    · have hscaled : (21 : Rat) * 2 ^ ((52 : Int) - 4) = ((5910974510923776 : Int) : Rat) := by
        norm_num
      rw [hscaled, roundHalfEven_intCast]
  rw [hval]
  norm_num

/-- At `pStar` the program books 21 rooms (`int(fl(fl(97*p)/100)) = 21`)
while the exact formula gives `⌊97*p/100⌋ = 20`. -/
theorem num_to_book_float_pStar : num_to_book_float 97 pStar = 21 := by
  unfold num_to_book_float
  have hcast : ((97 : Nat) : Rat) = (97 : Rat) := by norm_num
  rw [hcast, fl64_97_pStar, fl64_21]
  have hf21 : ⌊(21 : Rat)⌋ = 21 := by norm_num
  rw [hf21]
  rfl

/-- At 50% the float arithmetic is exact: `97 * 50.0 = 4850.0`,
`4850.0 / 100 = 48.5`, and truncation gives 48. -/
theorem num_to_book_float_50 : num_to_book_float 97 50 = 48 := by
  unfold num_to_book_float
  have hcast : ((97 : Nat) : Rat) = (97 : Rat) := by norm_num
  have h4850 : fl64 ((97 : Rat) * 50) = 4850 := by
    have hprod : (97 : Rat) * 50 = 4850 := by norm_num
    rw [hprod]
    have hval : fl64 (4850 : Rat) =
        ((5332631394713600 : Int) : Rat) * 2 ^ ((12 : Int) - 52) := by
      apply fl64_eval_pos
      · norm_num
      · apply int_log_eq
        · norm_num
        · norm_num
        · norm_num
      · have hscaled : (4850 : Rat) * 2 ^ ((52 : Int) - 12) =
            ((5332631394713600 : Int) : Rat) := by norm_num
        rw [hscaled, roundHalfEven_intCast]
    rw [hval]
    norm_num
  have h485 : fl64 ((4850 : Rat) / 100) = 97 / 2 := by
    have hdiv : (4850 : Rat) / 100 = 97 / 2 := by norm_num
    rw [hdiv]
    have hval : fl64 ((97 : Rat) / 2) =
        ((6825768185233408 : Int) : Rat) * 2 ^ ((5 : Int) - 52) := by
      apply fl64_eval_pos
      · norm_num
      · apply int_log_eq
        · norm_num
        · norm_num
        · norm_num
      · have hscaled : (97 : Rat) / 2 * 2 ^ ((52 : Int) - 5) =
            ((6825768185233408 : Int) : Rat) := by norm_num
        rw [hscaled, roundHalfEven_intCast]
    rw [hval]
    norm_num
  rw [hcast, h4850, h485]
  have hfloor : ⌊(97 : Rat) / 2⌋ = 48 := by
    rw [Int.floor_eq_iff]
    constructor
    · norm_num
    · norm_num
  rw [hfloor]
  rfl

/-- Statistics after `generate_random_occupancy`: a full reset followed by
booking the first `num_to_book_float` shuffled room numbers (the source
caps the loop at the 97 keys). -/
theorem generate_random_occupancy_stats (s : List Room) (p : Rat) (shuffled : List Nat)
    (gids : Nat → String) (hlen : s.length = 97)
    (hnd : (s.map fun r => r.room_number).Nodup)
    (hperm : shuffled.Perm (s.map fun r => r.room_number)) :
    get_statistics (generate_random_occupancy s p shuffled gids) =
      { total_rooms := 97,
        booked_rooms := min (num_to_book_float 97 p) 97,
        available_rooms := 97 - min (num_to_book_float 97 p) 97 } := by
  set k := num_to_book_float 97 p with hkdef
  have hshuflen : shuffled.length = 97 := by
    rw [hperm.length_eq, List.length_map, hlen]
  have hshufnd : shuffled.Nodup := hperm.nodup_iff.mpr hnd
  have hndreset : ((reset_all_bookings s).map fun r => r.room_number).Nodup := by
    rw [reset_map_number]
    exact hnd
  have havreset : ∀ num ∈ shuffled.take k, ∃ r, r ∈ reset_all_bookings s ∧
      r.room_number = num ∧ r.status = RoomStatus.AVAILABLE := by
    intro num hnum
    have hnum2 : num ∈ shuffled := (List.take_subset k shuffled) hnum
    have hnum3 : num ∈ s.map fun r => r.room_number := hperm.subset hnum2
    obtain ⟨r, hr, hrn⟩ := List.mem_map.mp hnum3
    refine ⟨{ r with status := RoomStatus.AVAILABLE, guest_id := none }, ?_, hrn, rfl⟩
    exact List.mem_map_of_mem _ hr
  have htknd : (shuffled.take k).Nodup := hshufnd.sublist (List.take_sublist k shuffled)
  have hcount := foldl_bookOne_countP gids (shuffled.take k) 0 (reset_all_bookings s)
    hndreset htknd havreset
  have hzero : ((reset_all_bookings s).countP fun r => r.status == RoomStatus.BOOKED) = 0 := by
    apply List.countP_eq_zero.mpr
    intro r hr
    obtain ⟨r2, _, hr2⟩ := List.mem_map.mp hr
    rw [← hr2]
    simp
  have htklen : (shuffled.take k).length = min k 97 := by
    rw [List.length_take, hshuflen]
  have hrl : (reset_all_bookings s).length = 97 := by
    unfold reset_all_bookings
    rw [List.length_map, hlen]
  have hlenfold : (((shuffled.take k).enumFrom 0).foldl
      (fun st2 p2 => bookOne st2 p2.2 (some (gids p2.1))) (reset_all_bookings s)).length =
      (reset_all_bookings s).length := by
    have h2 := foldl_bookOne_skel gids ((shuffled.take k).enumFrom 0) (reset_all_bookings s)
    have h3 := congrArg List.length h2
    rw [List.length_map, List.length_map] at h3
    exact h3
  unfold generate_random_occupancy
  rw [hlen]
  show get_statistics (((shuffled.take k).enum).foldl
      (fun st2 p2 => bookOne st2 p2.2 (some (gids p2.1))) (reset_all_bookings s)) =
    { total_rooms := 97, booked_rooms := min k 97, available_rooms := 97 - min k 97 }
  have henum : (shuffled.take k).enum = (shuffled.take k).enumFrom 0 := rfl
  rw [henum]
  unfold get_statistics
  rw [hcount, hzero, htklen, hlenfold, hrl]
  simp

/-- **C8 counterexample** At the legal percentage `pStar` (the double
21.649484536082472) the program books 21 rooms, while the claimed formula
`⌊97*p/100⌋` gives 20, so the claim as stated fails. -/
theorem random_occupancy_count_counterexample :
    (0 : Rat) ≤ pStar ∧ pStar ≤ 100 ∧
    (get_statistics (generate_random_occupancy initRooms pStar
        (initRooms.map fun r => r.room_number) (fun _ => "guest"))).booked_rooms = 21 ∧
    (Int.floor (((97 : Nat) : Rat) * pStar / 100)).toNat = 20 ∧
    ¬ (get_statistics (generate_random_occupancy initRooms pStar
        (initRooms.map fun r => r.room_number) (fun _ => "guest"))).booked_rooms =
      (Int.floor (((97 : Nat) : Rat) * pStar / 100)).toNat := by
  have hbooked : (get_statistics (generate_random_occupancy initRooms pStar
      (initRooms.map fun r => r.room_number) (fun _ => "guest"))).booked_rooms = 21 := by
    have hstats := generate_random_occupancy_stats initRooms pStar
      (initRooms.map fun r => r.room_number) (fun _ => "guest")
      (by decide) (by decide) (List.Perm.refl _)
    rw [hstats, num_to_book_float_pStar]
    rfl
  have hfloor : (Int.floor (((97 : Nat) : Rat) * pStar / 100)).toNat = 20 := by
    have hcast : ((97 : Nat) : Rat) = (97 : Rat) := by norm_num
    rw [hcast]
    have hfl : ⌊(97 : Rat) * pStar / 100⌋ = 20 := by
      rw [Int.floor_eq_iff]
      constructor
      · unfold pStar
        norm_num
      · unfold pStar
        norm_num
    rw [hfl]
    rfl
  refine ⟨by unfold pStar; norm_num, by unfold pStar; norm_num, hbooked, hfloor, ?_⟩
  rw [hbooked, hfloor]
  norm_num

/-- **C8 (amended)** Random occupancy: for every percentage `p` in `[0,100]`
and every shuffle outcome, `generate_random_occupancy` first resets every
room and then books exactly `min(int(fl(fl(97*p)/100)), 97)` distinct rooms
— the count computed with binary64 float rounding as in the source, which
differs from `⌊97*p/100⌋` at percentages within a rounding error of a count
boundary — so statistics report total 97, that count booked, and the rest
available; in particular p = 50.0 books exactly 48 rooms. -/
theorem random_occupancy_count (s : List Room) (p : Rat) (shuffled : List Nat)
    (gids : Nat → String) (hlen : s.length = 97)
    (hnd : (s.map fun r => r.room_number).Nodup)
    (hperm : shuffled.Perm (s.map fun r => r.room_number))
    (_hp0 : 0 ≤ p) (_hp1 : p ≤ 100) :
    get_statistics (generate_random_occupancy s p shuffled gids) =
      { total_rooms := 97,
        booked_rooms := min (num_to_book_float 97 p) 97,
        available_rooms := 97 - min (num_to_book_float 97 p) 97 } :=
  generate_random_occupancy_stats s p shuffled gids hlen hnd hperm

/-- **C8 witness** 50% occupancy on the fresh inventory books exactly 48
rooms: statistics are (97, 48, 49). -/
theorem random_occupancy_count_witness :
    (initRooms.length = 97 ∧
     (initRooms.map fun r => r.room_number).Nodup ∧
     (initRooms.map fun r => r.room_number).Perm (initRooms.map fun r => r.room_number) ∧
     (0 : Rat) ≤ 50 ∧ (50 : Rat) ≤ 100) ∧
    get_statistics (generate_random_occupancy initRooms 50
        (initRooms.map fun r => r.room_number) (fun _ => "guest")) =
      { total_rooms := 97, booked_rooms := 48, available_rooms := 49 } := by
  have hperm : (initRooms.map fun r => r.room_number).Perm
      (initRooms.map fun r => r.room_number) := List.Perm.refl _
  have h := random_occupancy_count initRooms 50 (initRooms.map fun r => r.room_number)
      (fun _ => "guest") (by decide) (by decide) hperm (by norm_num) (by norm_num)
  refine ⟨⟨by decide, by decide, hperm, by norm_num, by norm_num⟩, ?_⟩
  rw [h, num_to_book_float_50]
  rfl

/- ### Guest-identifier invariant -/

set_option maxRecDepth 8000 in
/-- **C9 counterexample** Booking with a null guest id (permitted at the
interface) succeeds and produces a reachable state containing a BOOKED room
whose guest identifier is absent, refuting the claimed iff. -/
theorem guest_present_iff_booked_counterexample :
    Except.map (fun res => res.state.any fun r =>
        r.status == RoomStatus.BOOKED && r.guest_id == (none : Option String))
      (book_rooms initRooms 1 none) = Except.ok true := by
  rfl

/-- The reachable states when every booking supplies a guest identifier. -/
inductive ReachableG : List Room → Prop where
  | init : ReachableG initRooms
  | book {s : List Room} {n : Int} {gid : String} {res : BookResult} :
      ReachableG s → book_rooms s n (some gid) = Except.ok res → ReachableG res.state
  | reset {s : List Room} : ReachableG s → ReachableG (reset_all_bookings s)
  | random {s : List Room} {p : Rat} {shuffled : List Nat} {gids : Nat → String} :
      ReachableG s → shuffled.Perm (s.map fun r => r.room_number) →
      ReachableG (generate_random_occupancy s p shuffled gids)

theorem foldl_bookOne_guestOK (gids : Nat → String) :
    ∀ (L : List (Nat × Nat)) (st : List Room),
      (∀ r ∈ st, (r.guest_id ≠ none ↔ r.status = RoomStatus.BOOKED)) →
      ∀ r ∈ L.foldl (fun st2 p => bookOne st2 p.2 (some (gids p.1))) st,
        (r.guest_id ≠ none ↔ r.status = RoomStatus.BOOKED) := by
  intro L
  induction L with
  | nil =>
      intro st hst
      exact hst
  | cons q L ih =>
      intro st hst
      rw [List.foldl_cons]
      apply ih
      intro r hr
      unfold bookOne at hr
      obtain ⟨r0, hr0, hreq⟩ := List.mem_map.mp hr
      by_cases hc : (r0.room_number == q.2) = true
      · rw [← hreq, if_pos hc]
        simp
      · rw [← hreq, if_neg hc]
        exact hst r0 hr0

/-- **C9 (amended)** In every state reachable when each successful
`book_rooms` call supplies a non-null guest id (the random generator always
does), a room's guest identifier is present exactly when the room is
BOOKED.  With a null guest id the booking leaves BOOKED rooms without an
identifier, as the counterexample shows. -/
theorem guest_present_iff_booked (s : List Room) (h : ReachableG s) :
    ∀ r ∈ s, (r.guest_id ≠ none ↔ r.status = RoomStatus.BOOKED) := by
  induction h with
  | init =>
      intro r hr
      have hall : ∀ r2 ∈ initRooms,
          r2.guest_id = none ∧ r2.status = RoomStatus.AVAILABLE := by decide
      obtain ⟨hg, hs⟩ := (hall r hr)
      rw [hg, hs]
      simp
  | book hr hok ih =>
      rename_i s0 n0 gid0 res0
      intro r2 hr2
      rw [book_ok_state hok] at hr2
      obtain ⟨r, hrmem, hreq⟩ := List.mem_map.mp hr2
      by_cases hc : r.room_number ∈ ((find_optimal_rooms s0 n0.toNat).map
          fun rr => rr.room_number)
      · rw [← hreq, if_pos hc]
        simp
      · rw [← hreq, if_neg hc]
        exact ih r hrmem
  | reset hr ih =>
      intro r2 hr2
      unfold reset_all_bookings at hr2
      obtain ⟨r, hrmem, hreq⟩ := List.mem_map.mp hr2
      rw [← hreq]
      simp
  | random hr hperm ih =>
      rename_i s0 p0 shuffled0 gids0
      intro r2 hr2
      unfold generate_random_occupancy at hr2
      refine foldl_bookOne_guestOK gids0 _ (reset_all_bookings s0) ?_ r2 hr2
      intro r hrm
      unfold reset_all_bookings at hrm
      obtain ⟨r0, _, hreq⟩ := List.mem_map.mp hrm
      rw [← hreq]
      simp

/-- **C9 witness** The amended invariant applied to room 101 of the
initial state. -/
theorem guest_present_iff_booked_witness :
    ({ room_number := 101, floor := 1, position := 0,
       status := RoomStatus.AVAILABLE, guest_id := none } : Room) ∈ initRooms ∧
    (({ room_number := 101, floor := 1, position := 0,
        status := RoomStatus.AVAILABLE, guest_id := none } : Room).guest_id ≠ none ↔
      ({ room_number := 101, floor := 1, position := 0,
         status := RoomStatus.AVAILABLE, guest_id := none } : Room).status =
        RoomStatus.BOOKED) :=
  ⟨by decide,
   guest_present_iff_booked initRooms ReachableG.init
     { room_number := 101, floor := 1, position := 0,
       status := RoomStatus.AVAILABLE, guest_id := none } (by decide)⟩
